import Mathlib

/-!
Verification development for the collaborative event-management core
(event versioning, role-based permissions, recurrence expansion, version
diffing).  The definitions below are a shallow embedding of the Python
source: `app/db/models.py` (data model), `app/crud/crud_event.py` and
`app/crud/crud_permission.py` (stateful operations), the Pydantic
validators of `app/schemas/event.py`, and the API endpoints of
`app/api/v1/endpoints/events.py` and `collaboration.py`.

Modelling conventions:
- timestamps are integers: seconds since 2024-01-01T00:00:00Z (a Monday),
  all normalized to UTC;
- the database is an explicit `DBState`; each transactional operation
  returns `Except` where an error means the transaction was rolled back
  (the Python code wraps every commit in try/rollback/re-raise), so the
  caller keeps the pre-state;
- a `commitOk : Bool` parameter models whether the storage commit itself
  succeeds; `false` takes the exception path of the source;
- surrogate-key generation (autoincrement ids) is modelled by the
  `next...Id` counters;
- the unique constraints of `models.py` (`(event_id, version_number)`,
  `(event_id, user_id)`) are modelled where the code relies on them:
  `add_permission` hits an IntegrityError exactly when a duplicate
  `(event_id, user_id)` row exists.
-/

namespace NeoEvent

/-- Role enumeration, from `models.RoleEnum` (OWNER, EDITOR, VIEWER). -/
inductive RoleEnum where
  | owner
  | editor
  | viewer
deriving DecidableEq, Repr

/-- One immutable snapshot of an event's content, from `models.EventVersion`.
`changed_at` (a server-side timestamp) is not modelled; it plays no role in
any claim. -/
structure EventVersion where
  id : Nat
  event_id : Nat
  version_number : Nat
  title : String
  description : Option String
  start_time : Int
  end_time : Int
  location : Option String
  is_recurring : Bool
  recurrence_pattern : Option String
  changed_by_user_id : Nat
deriving DecidableEq, Repr

/-- An event row, from `models.Event` (`created_at` omitted, unused by claims). -/
structure Event where
  id : Nat
  owner_id : Nat
  current_version_id : Option Nat
deriving DecidableEq, Repr

/-- A permission row, from `models.EventPermission` (`granted_at` omitted). -/
structure EventPermission where
  id : Nat
  event_id : Nat
  user_id : Nat
  role : RoleEnum
deriving DecidableEq, Repr

/-- The persistent store: the four tables of `models.py` (users reduced to
their ids, which is all the permission code reads) plus autoincrement
counters. -/
structure DBState where
  users : List Nat
  events : List Event
  versions : List EventVersion
  permissions : List EventPermission
  nextEventId : Nat
  nextVersionId : Nat
  nextPermissionId : Nat
deriving DecidableEq, Repr

/-- The content fields of an event version (the fields that are versioned),
as carried by `schemas.EventCreate` / copied between versions.  Matches the
non-metadata columns of `EventVersion`. -/
structure EventContent where
  title : String
  description : Option String
  start_time : Int
  end_time : Int
  location : Option String
  is_recurring : Bool
  recurrence_pattern : Option String
deriving DecidableEq, Repr

/-- Partial update payload, from `schemas.EventUpdate`.  An outer `none`
means the field was not supplied (Pydantic `exclude_unset`); for the
nullable columns the inner `Option` is the column value itself, so
`some none` models an explicit null in the payload. -/
structure EventUpdate where
  title : Option String
  description : Option (Option String)
  start_time : Option Int
  end_time : Option Int
  location : Option (Option String)
  is_recurring : Option Bool
  recurrence_pattern : Option (Option String)
deriving DecidableEq, Repr

/-- The update payload with no field supplied. -/
def noUpdate : EventUpdate :=
  { title := none, description := none, start_time := none, end_time := none,
    location := none, is_recurring := none, recurrence_pattern := none }

/-- Failure outcomes of the CRUD layer.  Each constructor corresponds to one
raise site in the source (all are Python `ValueError`s except
`commitFailed`, which stands for a storage exception, and `schemaInvalid`,
which stands for Pydantic request validation failure).  The spec's error
taxonomy maps `ownerRoleImmutable`, `ownerPermissionNotRemovable`,
`ownerRoleViaSharing` and `duplicatePermission` to ConflictError,
`userNotFound`/`eventNotFound`/`targetVersionNotFound` to NotFoundError,
the content checks to ValidationError, and `commitFailed` to
PersistenceError. -/
inductive CrudFailure where
  | schemaInvalid
  | userNotFound
  | eventNotFound
  | targetVersionNotFound
  | targetVersionMismatch
  | noCurrentVersion
  | recurrenceRequired
  | recurrenceMustBeNull
  | endNotAfterStart
  | ownerRoleViaSharing
  | duplicatePermission
  | ownerRoleImmutable
  | ownerPermissionNotRemovable
  | commitFailed
deriving DecidableEq, Repr

/-- HTTP-level failures of the endpoint layer. -/
inductive HttpError where
  | badRequest400
  | forbidden403
  | notFound404
  | serverError500
deriving DecidableEq, Repr

/-! ## Read helpers (the simple SELECTs of the CRUD layer) -/

/-- SELECT Event WHERE id = eid (first row). -/
def findEvent (st : DBState) (eid : Nat) : Option Event :=
  st.events.find? (fun e => e.id == eid)

/-- SELECT EventVersion WHERE id = vid (first row). -/
def findVersionById (st : DBState) (vid : Nat) : Option EventVersion :=
  st.versions.find? (fun v => v.id == vid)

/-- Embeds `CRUDEvent.get_event_version_by_version_id`: version by primary key,
restricted to the given event. -/
def get_event_version_by_version_id (st : DBState) (event_id version_id : Nat) :
    Option EventVersion :=
  st.versions.find? (fun v => v.id == version_id && v.event_id == event_id)

/-- Embeds `CRUDPermission.get_permission_by_event_and_user`. -/
def get_permission_by_event_and_user (st : DBState) (event_id user_id : Nat) :
    Option EventPermission :=
  st.permissions.find? (fun p => p.event_id == event_id && p.user_id == user_id)

/-- The loaded `Event.current_version` relationship: dereference the
current-version pointer. -/
def currentVersion (st : DBState) (e : Event) : Option EventVersion :=
  e.current_version_id.bind (findVersionById st)

/-- The content fields of a stored version (the projection the update/rollback
code copies, and the diff endpoint compares after excluding metadata). -/
def contentOfVersion (v : EventVersion) : EventContent :=
  { title := v.title, description := v.description, start_time := v.start_time,
    end_time := v.end_time, location := v.location, is_recurring := v.is_recurring,
    recurrence_pattern := v.recurrence_pattern }

/-! ## Validation (`schemas.event` Pydantic validators) -/

/-- Python truthiness of an optional string: `None` and the empty string are
falsy.  Used wherever the source writes `not recurrence_pattern`. -/
def patternTruthy : Option String → Bool
  | none => false
  | some s => !s.isEmpty

/-- The Pydantic validators of `EventVersionBase` (= `EventCreate`):
title min_length 1, `recurrence_pattern` required (truthy) iff
`is_recurring` else it must be null, and `end_time > start_time`.
(The max-length checks of title/location are not modelled; no claim
involves them.) -/
def validateEventCreate (c : EventContent) : Bool :=
  decide (1 ≤ c.title.length) &&
  (if c.is_recurring then patternTruthy c.recurrence_pattern
   else c.recurrence_pattern == none) &&
  decide (c.start_time < c.end_time)

/-- The version-content invariant the spec states for stored versions. -/
def validContent (c : EventContent) : Prop :=
  c.start_time < c.end_time ∧
  (c.is_recurring = true → patternTruthy c.recurrence_pattern = true) ∧
  (c.is_recurring = false → c.recurrence_pattern = none)

/-! ## Event CRUD (`crud_event.py`) -/

/-- Build the `EventVersion` row inserted by create/update/rollback. -/
def mkVersion (vid eid num : Nat) (c : EventContent) (uid : Nat) : EventVersion :=
  { id := vid, event_id := eid, version_number := num, title := c.title,
    description := c.description, start_time := c.start_time, end_time := c.end_time,
    location := c.location, is_recurring := c.is_recurring,
    recurrence_pattern := c.recurrence_pattern, changed_by_user_id := uid }

/-- Repoint an event's current-version pointer (the
`event.current_version_id = new_version.id` write). -/
def setCurrentPtr (eid vid : Nat) (e : Event) : Event :=
  if e.id = eid then { e with current_version_id := some vid } else e

/-- The committed state of one version-creating transaction of
`update_event_with_version` / `rollback_event_to_version`: insert the new
version row and repoint the event's current-version pointer, atomically. -/
def appendVersionState (st : DBState) (eid num : Nat) (c : EventContent) (uid : Nat) :
    DBState :=
  { st with
    versions := st.versions ++ [mkVersion st.nextVersionId eid num c uid],
    events := st.events.map (setCurrentPtr eid st.nextVersionId),
    nextVersionId := st.nextVersionId + 1 }

/-- The committed state of `create_event_with_version`: Event row,
EventVersion row with version_number 1, current-version pointer, and the
OWNER permission, all in one transaction. -/
def createState (st : DBState) (c : EventContent) (owner_id : Nat) : DBState :=
  { st with
    events := st.events ++
      [{ id := st.nextEventId, owner_id := owner_id,
         current_version_id := some st.nextVersionId }],
    versions := st.versions ++ [mkVersion st.nextVersionId st.nextEventId 1 c owner_id],
    permissions := st.permissions ++
      [{ id := st.nextPermissionId, event_id := st.nextEventId, user_id := owner_id,
         role := RoleEnum.owner }],
    nextEventId := st.nextEventId + 1,
    nextVersionId := st.nextVersionId + 1,
    nextPermissionId := st.nextPermissionId + 1 }

/-- Embeds `CRUDEvent.create_event_with_version`.  The input is already
Pydantic-validated (`EventCreate`).  On any storage failure the code rolls
the whole transaction back and re-raises, so the error case persists
nothing.  Returns the new event id with the new state. -/
def create_event_with_version (st : DBState) (event_data : EventContent)
    (owner_id : Nat) (commitOk : Bool) : Except CrudFailure (DBState × Nat) :=
  if commitOk then .ok (createState st event_data owner_id, st.nextEventId)
  else .error .commitFailed

/-- The create endpoint (`POST /events/`): Pydantic validation of the
request body, then the CRUD transaction. -/
def create_new_event (st : DBState) (raw : EventContent) (owner_id : Nat)
    (commitOk : Bool) : Except CrudFailure (DBState × Nat) :=
  if validateEventCreate raw = true then create_event_with_version st raw owner_id commitOk
  else .error .schemaInvalid

/-- One step of the merge loop of `update_event_with_version`: whether a
supplied field differs from the value carried over from the current version
(`new_version_data[field] != value`). -/
def fieldChanged {α : Type} [DecidableEq α] (o : Option α) (c : α) : Bool :=
  match o with
  | none => false
  | some v => c != v

/-- Whether any field at all was supplied (`model_dump(exclude_unset=True)`
non-empty). -/
def anySet (u : EventUpdate) : Bool :=
  u.title.isSome || u.description.isSome || u.start_time.isSome ||
  u.end_time.isSome || u.location.isSome || u.is_recurring.isSome ||
  u.recurrence_pattern.isSome

/-- The `has_changes` flag computed by the merge loop. -/
def hasChanges (cur : EventContent) (u : EventUpdate) : Bool :=
  fieldChanged u.title cur.title ||
  fieldChanged u.description cur.description ||
  fieldChanged u.start_time cur.start_time ||
  fieldChanged u.end_time cur.end_time ||
  fieldChanged u.location cur.location ||
  fieldChanged u.is_recurring cur.is_recurring ||
  fieldChanged u.recurrence_pattern cur.recurrence_pattern

/-- The merged content: fields present in the partial override the current
version's fields, absent fields are carried over unchanged. -/
def mergedContent (cur : EventContent) (u : EventUpdate) : EventContent :=
  { title := u.title.getD cur.title,
    description := u.description.getD cur.description,
    start_time := u.start_time.getD cur.start_time,
    end_time := u.end_time.getD cur.end_time,
    location := u.location.getD cur.location,
    is_recurring := u.is_recurring.getD cur.is_recurring,
    recurrence_pattern := u.recurrence_pattern.getD cur.recurrence_pattern }

/-- Embeds `CRUDEvent.update_event_with_version` (composed with the endpoint's fetch
of the event by id).  Mirrors the source order: current version loaded,
no-payload short-circuit, no-change short-circuit, then the three merged
content validations (recurrence required, recurrence must be null,
`end_time` after `start_time`), then the transaction: insert version
`current + 1` and repoint the current pointer. -/
def update_event_with_version (st : DBState) (event_id : Nat) (updates : EventUpdate)
    (user_id : Nat) (commitOk : Bool) : Except CrudFailure DBState :=
  match findEvent st event_id with
  | none => .error .eventNotFound
  | some ev =>
    match currentVersion st ev with
    | none => .error .noCurrentVersion
    | some cur =>
      if anySet updates = false then .ok st
      else if hasChanges (contentOfVersion cur) updates = false then .ok st
      else if (mergedContent (contentOfVersion cur) updates).is_recurring = true ∧
          patternTruthy (mergedContent (contentOfVersion cur) updates).recurrence_pattern
            = false then
        .error .recurrenceRequired
      else if (mergedContent (contentOfVersion cur) updates).is_recurring = false ∧
          (mergedContent (contentOfVersion cur) updates).recurrence_pattern ≠ none then
        .error .recurrenceMustBeNull
      else if (mergedContent (contentOfVersion cur) updates).end_time ≤
          (mergedContent (contentOfVersion cur) updates).start_time then
        .error .endNotAfterStart
      else if commitOk then
        .ok (appendVersionState st ev.id (cur.version_number + 1)
               (mergedContent (contentOfVersion cur) updates) user_id)
      else .error .commitFailed

/-- Embeds `CRUDEvent.rollback_event_to_version` (composed with the endpoint's
fetches): requires a loaded current version and a target version; checks the
target belongs to the event; then inserts a fresh version numbered
`current + 1` whose content is copied verbatim from the target, attributed
to the caller, and repoints the current pointer. -/
def rollback_event_to_version (st : DBState) (event_id target_version_id user_id : Nat)
    (commitOk : Bool) : Except CrudFailure DBState :=
  match findEvent st event_id with
  | none => .error .eventNotFound
  | some ev =>
    match currentVersion st ev with
    | none => .error .noCurrentVersion
    | some cur =>
      match findVersionById st target_version_id with
      | none => .error .targetVersionNotFound
      | some tgt =>
        if tgt.event_id ≠ ev.id then .error .targetVersionMismatch
        else if commitOk then
          .ok (appendVersionState st ev.id (cur.version_number + 1)
                 (contentOfVersion tgt) user_id)
        else .error .commitFailed

/-! ## Permission CRUD (`crud_permission.py`) -/

/-- The in-place role write of `update_user_permission`
(`permission_to_update.role = new_role`): the row keyed by
`(event_id, user_id)` gets the new role, all other rows are untouched. -/
def updRoleFn (eid uid : Nat) (r : RoleEnum) (p : EventPermission) : EventPermission :=
  if p.event_id = eid ∧ p.user_id = uid then { p with role := r } else p

/-- Embeds `CRUDPermission.add_permission`.  Checks user and event existence, the
owner carve-outs, then INSERTs; the unique `(event_id, user_id)` constraint
makes the commit raise IntegrityError exactly when a row for the pair
already exists, in which case the code rolls back and either returns the
existing row (same role: idempotent no-op) or raises (different role). -/
def add_permission (st : DBState) (event_id user_id : Nat) (role : RoleEnum)
    (commitOk : Bool) : Except CrudFailure (DBState × EventPermission) :=
  if user_id ∉ st.users then .error .userNotFound
  else
    match findEvent st event_id with
    | none => .error .eventNotFound
    | some ev =>
      if ev.owner_id = user_id ∧ role ≠ RoleEnum.owner then .error .ownerRoleViaSharing
      else
        match (if ev.owner_id = user_id ∧ role = RoleEnum.owner then
                 get_permission_by_event_and_user st event_id user_id
               else none) with
        | some p => .ok (st, p)
        | none =>
          match get_permission_by_event_and_user st event_id user_id with
          | some p =>
            if p.role = role then .ok (st, p) else .error .duplicatePermission
          | none =>
            if commitOk then
              .ok ({ st with
                     permissions := st.permissions ++
                       [{ id := st.nextPermissionId, event_id := event_id,
                          user_id := user_id, role := role }],
                     nextPermissionId := st.nextPermissionId + 1 },
                   { id := st.nextPermissionId, event_id := event_id,
                     user_id := user_id, role := role })
            else .error .commitFailed

/-- The committed state of `update_user_permission`: the targeted row's
role is written, all other rows untouched. -/
def updatedPermState (st : DBState) (event_id user_id : Nat) (r : RoleEnum) : DBState :=
  { st with permissions := st.permissions.map (updRoleFn event_id user_id r) }

/-- The committed state of `remove_user_permission`: the `(event, user)`
row is deleted, all other rows untouched. -/
def removedPermState (st : DBState) (event_id user_id : Nat) : DBState :=
  { st with
    permissions :=
      st.permissions.filter
        (fun p => !(p.event_id == event_id && p.user_id == user_id)) }

/-- Embeds `CRUDPermission.update_user_permission`.  Returns `(st, none)` when no
permission row exists (the Python function returns None); raises when the
target is the event's owner and the new role is not OWNER; otherwise writes
the role and commits. -/
def update_user_permission (st : DBState) (event_id user_id : Nat)
    (new_role : RoleEnum) (commitOk : Bool) :
    Except CrudFailure (DBState × Option EventPermission) :=
  match get_permission_by_event_and_user st event_id user_id with
  | none => .ok (st, none)
  | some p =>
    match findEvent st event_id with
    | some ev =>
      if ev.owner_id = user_id ∧ new_role ≠ RoleEnum.owner then
        .error .ownerRoleImmutable
      else if commitOk then
        .ok (updatedPermState st event_id user_id new_role,
             some { p with role := new_role })
      else .error .commitFailed
    | none =>
      if commitOk then
        .ok (updatedPermState st event_id user_id new_role,
             some { p with role := new_role })
      else .error .commitFailed

/-- Embeds `CRUDPermission.remove_user_permission`.  Raises when the target is the
event's owner; otherwise DELETEs the `(event_id, user_id)` row and reports
whether a row was actually deleted (`rowcount > 0`). -/
def remove_user_permission (st : DBState) (event_id user_id : Nat)
    (commitOk : Bool) : Except CrudFailure (DBState × Bool) :=
  match findEvent st event_id with
  | some ev =>
    if ev.owner_id = user_id then .error .ownerPermissionNotRemovable
    else if commitOk then
      .ok (removedPermState st event_id user_id,
           st.permissions.any (fun p => p.event_id == event_id && p.user_id == user_id))
    else .error .commitFailed
  | none =>
    if commitOk then
      .ok (removedPermState st event_id user_id,
           st.permissions.any (fun p => p.event_id == event_id && p.user_id == user_id))
    else .error .commitFailed

/-! ## Collaboration endpoints (`collaboration.py`) -/

/-- Embeds `_get_event_and_check_permission`: 404 when the event is absent, 403 when
the caller has no permission row or a role outside the allowed set. -/
def get_event_and_check_permission (st : DBState) (event_id user_id : Nat)
    (allowed : List RoleEnum) : Except HttpError Event :=
  match findEvent st event_id with
  | none => .error .notFound404
  | some ev =>
    match get_permission_by_event_and_user st event_id user_id with
    | none => .error .forbidden403
    | some p => if p.role ∈ allowed then .ok ev else .error .forbidden403

/-- Embeds `PUT /events/id/permissions/uid`: gate (Owner or Editor), then the two
owner guards of the endpoint (no assigning OWNER to a non-owner, no demoting
the owner), then the CRUD update.  CRUD `ValueError`s map to 400, a missing
permission row to 404, storage failures to 500. -/
def update_user_event_permission (st : DBState) (event_id user_id_to_update : Nat)
    (new_role : RoleEnum) (caller : Nat) (commitOk : Bool) :
    Except HttpError DBState :=
  match get_event_and_check_permission st event_id caller
      [RoleEnum.owner, RoleEnum.editor] with
  | .error e => .error e
  | .ok _ =>
    match findEvent st event_id with
    | none => .error .notFound404
    | some ev =>
      if new_role = RoleEnum.owner ∧ ev.owner_id ≠ user_id_to_update then
        .error .badRequest400
      else if ev.owner_id = user_id_to_update ∧ new_role ≠ RoleEnum.owner then
        .error .badRequest400
      else
        match update_user_permission st event_id user_id_to_update new_role commitOk with
        | .error .commitFailed => .error .serverError500
        | .error _ => .error .badRequest400
        | .ok (_, none) => .error .notFound404
        | .ok (st', some _) => .ok st'

/-- Embeds `DELETE /events/id/permissions/uid`: gate (Owner or Editor), the
endpoint's owner guard (400), the self-removal guard for non-owners (403),
then the CRUD delete; a miss maps to 404. -/
def remove_user_access_to_event (st : DBState) (event_id user_id_to_remove caller : Nat)
    (commitOk : Bool) : Except HttpError DBState :=
  match get_event_and_check_permission st event_id caller
      [RoleEnum.owner, RoleEnum.editor] with
  | .error e => .error e
  | .ok event_details =>
    if event_details.owner_id = user_id_to_remove then .error .badRequest400
    else if caller = user_id_to_remove ∧ event_details.owner_id ≠ caller then
      .error .forbidden403
    else
      match remove_user_permission st event_id user_id_to_remove commitOk with
      | .error .commitFailed => .error .serverError500
      | .error _ => .error .badRequest400
      | .ok (_, false) => .error .notFound404
      | .ok (st', true) => .ok st'

/-! ## Recurrence expansion (`CRUDEvent._expand_recurring_event`)

The source delegates recurrence-rule parsing and enumeration to the
external dateutil library (`rrule.rrulestr` and `rule.between(a, b,
inc=True)`).  That collaborator is modelled here for the rule shape the
repository uses (`models.py` documents the pattern format as e.g.
FREQ=WEEKLY;BYDAY=MO,WE,FR;UNTIL=20231231T000000Z): weekly rules with an
optional BYDAY list and an optional UNTIL bound, anchored at `dtstart`,
with `between` returning the occurrence starts `t` with `a ≤ t ≤ b`.
Any pattern outside this shape fails to parse, which models the
source's catch-all exception handler: expansion of that event yields no
instances. -/

/-- Digits of a decimal number, or `none` when the characters are not all
digits. -/
def natOfDigits (cs : List Char) : Option Nat :=
  if cs ≠ [] ∧ cs.all Char.isDigit then
    some (cs.foldl (fun n c => n * 10 + (c.toNat - 48)) 0)
  else none

/-- Days from civil date (proleptic Gregorian), Hinnant's algorithm with
floor division. -/
def daysFromCivil (y m d : Nat) : Int :=
  let yi : Int := y
  let mi : Int := m
  let di : Int := d
  let y2 : Int := if mi ≤ 2 then yi - 1 else yi
  let era : Int := y2.fdiv 400
  let yoe : Int := y2 - era * 400
  let doy : Int := ((153 * (mi + (if 2 < mi then -3 else 9)) + 2).fdiv 5) + di - 1
  let doe : Int := yoe * 365 + yoe.fdiv 4 - yoe.fdiv 100 + doy
  era * 146097 + doe - 719468

/-- Seconds since the model epoch 2024-01-01T00:00:00Z for a UTC civil
timestamp. -/
def civilToSeconds (y m d h mi s : Nat) : Int :=
  (daysFromCivil y m d - daysFromCivil 2024 1 1) * 86400 +
    3600 * (h : Int) + 60 * (mi : Int) + (s : Int)

/-- Weekday of an instant, 0 = Monday (the model epoch is a Monday). -/
def weekday (t : Int) : Int :=
  (t.fdiv 86400).emod 7

/-- Split a character list on a separator character. -/
def splitOnChar (sep : Char) (cs : List Char) : List (List Char) :=
  cs.foldr
    (fun c acc =>
      match acc with
      | [] => [[c]]
      | g :: rest => if c = sep then [] :: g :: rest else (c :: g) :: rest)
    [[]]

/-- A parsed weekly recurrence rule: optional BYDAY weekday list (absent
means the dtstart weekday, dateutil's default) and optional UNTIL bound. -/
structure WeeklyRule where
  byday : Option (List Int)
  untilTime : Option Int
deriving DecidableEq, Repr

/-- Accumulator for rule-string parsing. -/
structure RuleParts where
  freqWeekly : Bool := false
  byday : Option (List Int) := none
  untilTime : Option Int := none
deriving DecidableEq, Repr

/-- BYDAY token to weekday number (0 = Monday). -/
def parseBydayToken (cs : List Char) : Option Int :=
  match cs with
  | ['M', 'O'] => some 0
  | ['T', 'U'] => some 1
  | ['W', 'E'] => some 2
  | ['T', 'H'] => some 3
  | ['F', 'R'] => some 4
  | ['S', 'A'] => some 5
  | ['S', 'U'] => some 6
  | _ => none

/-- UNTIL value: a basic-format UTC timestamp YYYYMMDDTHHMMSSZ, or a bare
date YYYYMMDD. -/
def parseUntilChars (cs : List Char) : Option Int :=
  match cs with
  | [y1, y2, y3, y4, m1, m2, d1, d2, 'T', h1, h2, i1, i2, s1, s2, 'Z'] => do
    let y ← natOfDigits [y1, y2, y3, y4]
    let m ← natOfDigits [m1, m2]
    let d ← natOfDigits [d1, d2]
    let h ← natOfDigits [h1, h2]
    let i ← natOfDigits [i1, i2]
    let s ← natOfDigits [s1, s2]
    some (civilToSeconds y m d h i s)
  | [y1, y2, y3, y4, m1, m2, d1, d2] => do
    let y ← natOfDigits [y1, y2, y3, y4]
    let m ← natOfDigits [m1, m2]
    let d ← natOfDigits [d1, d2]
    some (civilToSeconds y m d 0 0 0)
  | _ => none

/-- One KEY=VALUE part of a rule string. -/
def parseRulePart (acc : RuleParts) (part : List Char) : Option RuleParts :=
  match splitOnChar '=' part with
  | [k, v] =>
    if k = ['F', 'R', 'E', 'Q'] then
      if v = ['W', 'E', 'E', 'K', 'L', 'Y'] then some { acc with freqWeekly := true }
      else none
    else if k = ['B', 'Y', 'D', 'A', 'Y'] then do
      let ds ← (splitOnChar ',' v).mapM parseBydayToken
      some { acc with byday := some ds }
    else if k = ['U', 'N', 'T', 'I', 'L'] then do
      let u ← parseUntilChars v
      some { acc with untilTime := some u }
    else none
  | _ => none

/-- Parse a recurrence-pattern string into a weekly rule, modelling
`rrule.rrulestr` on the rule shape this repository uses. -/
def parseRecurrencePattern (s : String) : Option WeeklyRule := do
  let acc ← (splitOnChar ';' s.toList).foldlM parseRulePart {}
  if acc.freqWeekly then some { byday := acc.byday, untilTime := acc.untilTime }
  else none

/-- Embeds `rule.between(a, b, inc=True)` for a weekly rule anchored at `dtstart`:
the occurrence starts `t` with `a ≤ t ≤ b`.  Occurrences keep dtstart's
time of day, fall on the BYDAY weekdays (default: dtstart's weekday), are
never before `dtstart`, and never after UNTIL when present. -/
def ruleOccurrencesBetween (r : WeeklyRule) (dtstart a b : Int) : List Int :=
  let byd := r.byday.getD [weekday dtstart]
  let first := a + (dtstart - a).emod 86400
  let n := ((b - first).fdiv 86400 + 1).toNat
  ((List.range n).map (fun k => first + 86400 * (k : Int))).filter
    (fun t =>
      decide (dtstart ≤ t) && byd.contains (weekday t) &&
      (match r.untilTime with
       | none => true
       | some u => decide (t ≤ u)))

/-- One concrete occurrence produced by expansion (the instance dicts the
source builds: title, instance start/end, location). -/
structure OccInstance where
  title : String
  instance_start_time : Int
  instance_end_time : Int
  location : Option String
deriving DecidableEq, Repr

/-- Embeds `CRUDEvent._expand_recurring_event` over the half-open window
filter_start/filter_end.  Non-recurring content (or falsy pattern) yields
its own interval iff it intersects the window; recurring content yields the
rule occurrences between the bounds (inclusive), each with the original
duration, filtered by the same intersection test.  A pattern the rule
parser rejects takes the exception path and yields no instances. -/
def expand_recurring_event (v : EventContent) (filter_start filter_end : Int) :
    List OccInstance :=
  if !v.is_recurring || !(patternTruthy v.recurrence_pattern) then
    if v.start_time < filter_end ∧ filter_start < v.end_time then
      [{ title := v.title, instance_start_time := v.start_time,
         instance_end_time := v.end_time, location := v.location }]
    else []
  else
    match v.recurrence_pattern with
    | none => []
    | some pat =>
      match parseRecurrencePattern pat with
      | none => []
      | some rule =>
        (ruleOccurrencesBetween rule v.start_time filter_start filter_end).filterMap
          (fun occStart =>
            let occEnd := occStart + (v.end_time - v.start_time)
            if occStart < filter_end ∧ filter_start < occEnd then
              some { title := v.title, instance_start_time := occStart,
                     instance_end_time := occEnd, location := v.location }
            else none)

/-! ## Version diff (`GET /events/id/diff/v1/v2`) -/

/-- The content fields the diff endpoint compares (everything except the
metadata `exclude_from_diff` set: id, event_id, version_number, changed_at,
changed_by_user_id, changed_by_user). -/
inductive DiffField where
  | title
  | description
  | start_time
  | end_time
  | location
  | is_recurring
  | recurrence_pattern
deriving DecidableEq, Repr

/-- A field value as it appears in the dumped version dict. -/
inductive FieldVal where
  | s (v : String)
  | os (v : Option String)
  | t (v : Int)
  | b (v : Bool)
deriving DecidableEq, Repr

/-- Projection of one content field out of the dumped dict. -/
def fieldVal (c : EventContent) : DiffField → FieldVal
  | .title => .s c.title
  | .description => .os c.description
  | .start_time => .t c.start_time
  | .end_time => .t c.end_time
  | .location => .os c.location
  | .is_recurring => .b c.is_recurring
  | .recurrence_pattern => .os c.recurrence_pattern

/-- All content fields, in dict order. -/
def allDiffFields : List DiffField :=
  [.title, .description, .start_time, .end_time, .location, .is_recurring,
   .recurrence_pattern]

/-- DeepDiff over the two dumped flat dicts: for every content field whose
values differ, an entry (field, old value, new value).  (DeepDiff buckets
entries into values_changed / type_changes; that classification carries no
information beyond the value pair for these scalar fields and is not
modelled.) -/
def deepDiffContent (old new : EventContent) : List (DiffField × FieldVal × FieldVal) :=
  allDiffFields.filterMap
    (fun f =>
      if fieldVal old f ≠ fieldVal new f then some (f, fieldVal old f, fieldVal new f)
      else none)

/-- Embeds `get_event_diff_between_versions_endpoint`: reject equal ids with 400,
404 for missing event or versions, 403 for a caller with no permission row,
then DeepDiff of the two dumped dicts with metadata excluded. -/
def get_event_diff_between_versions (st : DBState) (event_id version_id1 version_id2 : Nat)
    (caller : Nat) : Except HttpError (List (DiffField × FieldVal × FieldVal)) :=
  if version_id1 = version_id2 then .error .badRequest400
  else
    match findEvent st event_id with
    | none => .error .notFound404
    | some _ =>
      match get_permission_by_event_and_user st event_id caller with
      | none => .error .forbidden403
      | some _ =>
        match get_event_version_by_version_id st event_id version_id1,
              get_event_version_by_version_id st event_id version_id2 with
        | some v1, some v2 =>
          .ok (deepDiffContent (contentOfVersion v1) (contentOfVersion v2))
        | some _, none => .error .notFound404
        | none, _ => .error .notFound404

/-! ## Operation traces -/

/-- The version-creating operations on the store, as invoked through the
API (a trace is any sequence of attempted operations; the `ok` flag is the
storage-commit outcome). -/
inductive Op where
  | createE (data : EventContent) (owner : Nat) (ok : Bool)
  | updateE (event_id : Nat) (upd : EventUpdate) (user : Nat) (ok : Bool)
  | rollbackE (event_id target_version_id user : Nat) (ok : Bool)

/-- The state observed after a transactional call: the new state on
success, the rolled-back (unchanged) state on error. -/
def resultStateD {ε : Type} (st : DBState) : Except ε DBState → DBState
  | .ok st' => st'
  | .error _ => st

/-- Apply one operation: a failed operation was rolled back, leaving the
state unchanged. -/
def applyOp (st : DBState) (op : Op) : DBState :=
  match op with
  | .createE d o ok => resultStateD st ((create_new_event st d o ok).map Prod.fst)
  | .updateE eid u uid ok => resultStateD st (update_event_with_version st eid u uid ok)
  | .rollbackE eid vid uid ok =>
    resultStateD st (rollback_event_to_version st eid vid uid ok)

/-- A fresh store holding only user rows. -/
def initState (users : List Nat) : DBState :=
  { users := users, events := [], versions := [], permissions := [],
    nextEventId := 1, nextVersionId := 1, nextPermissionId := 1 }

/-- Run a trace of operations from a fresh store. -/
def applyTrace (users : List Nat) (ops : List Op) : DBState :=
  ops.foldl applyOp (initState users)

/-- The stored versions of one event. -/
def versionsOf (st : DBState) (eid : Nat) : List EventVersion :=
  st.versions.filter (fun v => v.event_id == eid)

/-- The stored version numbers of one event, in insertion order. -/
def versionNumbersOf (st : DBState) (eid : Nat) : List Nat :=
  (versionsOf st eid).map (fun v => v.version_number)

/-- Number of operations of a trace that actually created a version row for
the given event (a successful create of that event, or a successful
non-no-op update/rollback of it). -/
def versionCreatingOpCount (st : DBState) (ops : List Op) (eid : Nat) : Nat :=
  match ops with
  | [] => 0
  | op :: rest =>
    ((versionsOf (applyOp st op) eid).length - (versionsOf st eid).length) +
      versionCreatingOpCount (applyOp st op) rest eid

/-- The permission-mutating endpoint operations (role update and revoke),
as a trace alphabet for the owner-row invariant. -/
inductive PermOp where
  | updateRole (event_id user_id : Nat) (role : RoleEnum) (caller : Nat) (ok : Bool)
  | revoke (event_id user_id caller : Nat) (ok : Bool)

/-- Apply one permission endpoint operation; an error response leaves the
store unchanged. -/
def applyPermOp (st : DBState) (op : PermOp) : DBState :=
  match op with
  | .updateRole eid uid r caller ok =>
    resultStateD st (update_user_event_permission st eid uid r caller ok)
  | .revoke eid uid caller ok =>
    resultStateD st (remove_user_access_to_event st eid uid caller ok)

/-- The OWNER rows of one event. -/
def ownerRows (st : DBState) (eid : Nat) : List EventPermission :=
  st.permissions.filter (fun p => p.event_id == eid && p.role == RoleEnum.owner)

/-- Exactly one OWNER row for this event, and it is the owner's. -/
def ownerOk (st : DBState) (e : Event) : Bool :=
  match ownerRows st e.id with
  | [p] => p.user_id == e.owner_id
  | _ => false

/-- The unique `(event_id, user_id)` constraint of `EventPermission`. -/
def pairKeysUnique : List EventPermission → Bool
  | [] => true
  | p :: rest =>
    rest.all (fun q => !(q.event_id == p.event_id && q.user_id == p.user_id)) &&
      pairKeysUnique rest

/-- The permission-table invariant: unique `(event_id, user_id)` pairs, and
per event exactly one OWNER row, held by `Event.owner_id`. -/
def PermInv (st : DBState) : Prop :=
  pairKeysUnique st.permissions = true ∧ ∀ e ∈ st.events, ownerOk st e = true

/-! ## The store invariant maintained by the version-creating operations -/

/-- State invariant: id generation is fresh, ids are unique, every version
belongs to an event, each event's version numbers are exactly 1..N in
insertion order, the current-version pointer targets a version of the event
carrying the highest number, all stored content is valid, and every event
has its owner's OWNER permission row. -/
structure Inv (st : DBState) : Prop where
  eventIdsBound : ∀ e ∈ st.events, e.id < st.nextEventId
  versionIdsBound : ∀ v ∈ st.versions, v.id < st.nextVersionId
  eventIdsNodup : st.events.Pairwise (fun a b => a.id ≠ b.id)
  versionIdsNodup : st.versions.Pairwise (fun a b => a.id ≠ b.id)
  versionEventExists : ∀ v ∈ st.versions, ∃ e ∈ st.events, e.id = v.event_id
  numbering : ∀ k : Nat, versionNumbersOf st k = List.range' 1 (versionsOf st k).length
  currentPtr : ∀ e ∈ st.events, ∃ v ∈ st.versions,
    e.current_version_id = some v.id ∧ v.event_id = e.id ∧
    v.version_number = (versionsOf st e.id).length
  validAll : ∀ v ∈ st.versions, validContent (contentOfVersion v)
  ownerPerm : ∀ e ∈ st.events, ∃ p ∈ st.permissions,
    p.event_id = e.id ∧ p.user_id = e.owner_id ∧ p.role = RoleEnum.owner

/-! ## Generic list lemmas -/

theorem pairwise_key_inj {α : Type} {key : α → Nat} {l : List α}
    (hp : l.Pairwise (fun a b => key a ≠ key b)) {a b : α}
    (ha : a ∈ l) (hb : b ∈ l) (hk : key a = key b) : a = b := by
  induction l with
  | nil => cases ha
  | cons x t ih =>
    rcases List.pairwise_cons.mp hp with ⟨hx, ht⟩
    rcases List.mem_cons.mp ha with rfl | ha' <;>
      rcases List.mem_cons.mp hb with rfl | hb'
    · rfl
    · exact absurd hk (hx b hb')
    · exact absurd hk.symm (hx a ha')
    · exact ih ht ha' hb'

theorem map_eq_self_of_eq {α : Type} {f : α → α} {l : List α}
    (h : ∀ a ∈ l, f a = a) : l.map f = l := by
  induction l with
  | nil => rfl
  | cons x t ih =>
    simp only [List.map_cons, h x (List.mem_cons_self x t)]
    rw [ih (fun a ha => h a (List.mem_cons_of_mem x ha))]

/-! ## Lookup facts -/

theorem findEvent_eq_some {st : DBState} {eid : Nat} {ev : Event}
    (h : findEvent st eid = some ev) : ev ∈ st.events ∧ ev.id = eid := by
  refine ⟨List.mem_of_find?_eq_some h, ?_⟩
  have := List.find?_some h
  simpa using this

theorem findVersionById_eq_some {st : DBState} {vid : Nat} {v : EventVersion}
    (h : findVersionById st vid = some v) : v ∈ st.versions ∧ v.id = vid := by
  refine ⟨List.mem_of_find?_eq_some h, ?_⟩
  have := List.find?_some h
  simpa using this

theorem currentVersion_eq_some {st : DBState} {e : Event} {cur : EventVersion}
    (h : currentVersion st e = some cur) :
    e.current_version_id = some cur.id ∧ cur ∈ st.versions := by
  unfold currentVersion at h
  cases hcv : e.current_version_id with
  | none => rw [hcv] at h; cases h
  | some cvid =>
    rw [hcv] at h
    simp only [Option.some_bind] at h
    obtain ⟨hmem, hid⟩ := findVersionById_eq_some h
    exact ⟨by simp [hcv, hid], hmem⟩

/-- Under the invariant, the loaded current version of a stored event is a
version of that event carrying the highest version number. -/
theorem currentVersion_spec {st : DBState} (hInv : Inv st) {ev : Event}
    (hev : ev ∈ st.events) {cur : EventVersion}
    (h : currentVersion st ev = some cur) :
    cur ∈ st.versions ∧ cur.event_id = ev.id ∧
    cur.version_number = (versionsOf st ev.id).length := by
  obtain ⟨hptr, hmem⟩ := currentVersion_eq_some h
  obtain ⟨v, hv, hvp, hvev, hvn⟩ := hInv.currentPtr ev hev
  have hid : cur.id = v.id := by
    rw [hptr] at hvp
    exact Option.some.inj hvp
  have : cur = v := pairwise_key_inj hInv.versionIdsNodup hmem hv hid
  subst this
  exact ⟨hmem, hvev, hvn⟩

/-! ## Shape of the committed states -/

theorem versionsOf_appendVersionState (st : DBState) (eid num : Nat)
    (c : EventContent) (uid : Nat) (k : Nat) :
    versionsOf (appendVersionState st eid num c uid) k =
      versionsOf st k ++
        (if eid = k then [mkVersion st.nextVersionId eid num c uid] else []) := by
  unfold versionsOf appendVersionState
  rw [List.filter_append]
  by_cases h : eid = k <;> simp [mkVersion, h]

theorem versionsOf_createState (st : DBState) (c : EventContent) (owner : Nat)
    (k : Nat) :
    versionsOf (createState st c owner) k =
      versionsOf st k ++
        (if st.nextEventId = k then [mkVersion st.nextVersionId st.nextEventId 1 c owner]
         else []) := by
  unfold versionsOf createState
  rw [List.filter_append]
  by_cases h : st.nextEventId = k <;> simp [mkVersion, h]

theorem versionsOf_fresh {st : DBState} (hInv : Inv st) :
    versionsOf st st.nextEventId = [] := by
  unfold versionsOf
  rw [List.filter_eq_nil_iff]
  intro v hv
  obtain ⟨e, he, heq⟩ := hInv.versionEventExists v hv
  have hlt := hInv.eventIdsBound e he
  simp only [beq_iff_eq]
  omega

theorem setCurrentPtr_id (eid vid : Nat) (e : Event) :
    (setCurrentPtr eid vid e).id = e.id := by
  unfold setCurrentPtr
  split <;> rfl

theorem setCurrentPtr_owner (eid vid : Nat) (e : Event) :
    (setCurrentPtr eid vid e).owner_id = e.owner_id := by
  unfold setCurrentPtr
  split <;> rfl

theorem contentOf_mkVersion (vid eid num : Nat) (c : EventContent) (uid : Nat) :
    contentOfVersion (mkVersion vid eid num c uid) = c := rfl

theorem range'_concat_one (n : Nat) :
    List.range' 1 (n + 1) = List.range' 1 n ++ [n + 1] := by
  rw [List.range'_concat]
  congr 1
  simp [Nat.add_comm]

/-! ## Invariant preservation -/

theorem appendVersionState_versions (st : DBState) (eid num : Nat)
    (c : EventContent) (uid : Nat) :
    (appendVersionState st eid num c uid).versions =
      st.versions ++ [mkVersion st.nextVersionId eid num c uid] := rfl

theorem appendVersionState_events (st : DBState) (eid num : Nat)
    (c : EventContent) (uid : Nat) :
    (appendVersionState st eid num c uid).events =
      st.events.map (setCurrentPtr eid st.nextVersionId) := rfl

theorem appendVersionState_permissions (st : DBState) (eid num : Nat)
    (c : EventContent) (uid : Nat) :
    (appendVersionState st eid num c uid).permissions = st.permissions := rfl

theorem appendVersionState_nextEventId (st : DBState) (eid num : Nat)
    (c : EventContent) (uid : Nat) :
    (appendVersionState st eid num c uid).nextEventId = st.nextEventId := rfl

theorem appendVersionState_nextVersionId (st : DBState) (eid num : Nat)
    (c : EventContent) (uid : Nat) :
    (appendVersionState st eid num c uid).nextVersionId = st.nextVersionId + 1 := rfl

theorem createState_events (st : DBState) (c : EventContent) (owner : Nat) :
    (createState st c owner).events =
      st.events ++
        [{ id := st.nextEventId, owner_id := owner,
           current_version_id := some st.nextVersionId }] := rfl

theorem createState_versions (st : DBState) (c : EventContent) (owner : Nat) :
    (createState st c owner).versions =
      st.versions ++ [mkVersion st.nextVersionId st.nextEventId 1 c owner] := rfl

theorem createState_permissions (st : DBState) (c : EventContent) (owner : Nat) :
    (createState st c owner).permissions =
      st.permissions ++
        [{ id := st.nextPermissionId, event_id := st.nextEventId, user_id := owner,
           role := RoleEnum.owner }] := rfl

theorem createState_nextEventId (st : DBState) (c : EventContent) (owner : Nat) :
    (createState st c owner).nextEventId = st.nextEventId + 1 := rfl

theorem createState_nextVersionId (st : DBState) (c : EventContent) (owner : Nat) :
    (createState st c owner).nextVersionId = st.nextVersionId + 1 := rfl

theorem mkVersion_id (vid eid num : Nat) (c : EventContent) (uid : Nat) :
    (mkVersion vid eid num c uid).id = vid := rfl

theorem mkVersion_event_id (vid eid num : Nat) (c : EventContent) (uid : Nat) :
    (mkVersion vid eid num c uid).event_id = eid := rfl

theorem mkVersion_version_number (vid eid num : Nat) (c : EventContent) (uid : Nat) :
    (mkVersion vid eid num c uid).version_number = num := rfl

theorem inv_appendVersionState {st : DBState} {ev : Event} {cur : EventVersion}
    {c : EventContent} {uid : Nat} (hInv : Inv st) (hev : ev ∈ st.events)
    (hcur : currentVersion st ev = some cur) (hc : validContent c) :
    Inv (appendVersionState st ev.id (cur.version_number + 1) c uid) := by
  obtain ⟨hcmem, hcev, hcnum⟩ := currentVersion_spec hInv hev hcur
  refine ⟨?_, ?_, ?_, ?_, ?_, ?_, ?_, ?_, ?_⟩
  · -- eventIdsBound
    intro e' he'
    rw [appendVersionState_events] at he'
    rw [appendVersionState_nextEventId]
    obtain ⟨e, he, rfl⟩ := List.mem_map.mp he'
    rw [setCurrentPtr_id]
    exact hInv.eventIdsBound e he
  · -- versionIdsBound
    intro v hv
    rw [appendVersionState_versions] at hv
    rw [appendVersionState_nextVersionId]
    rcases List.mem_append.mp hv with hold | hnew
    · exact Nat.lt_succ_of_lt (hInv.versionIdsBound v hold)
    · rw [List.mem_singleton.mp hnew, mkVersion_id]
      exact Nat.lt_succ_self _
  · -- eventIdsNodup
    rw [appendVersionState_events]
    exact hInv.eventIdsNodup.map _ (fun a b hab => by
      rw [setCurrentPtr_id, setCurrentPtr_id]; exact hab)
  · -- versionIdsNodup
    rw [appendVersionState_versions, List.pairwise_append]
    refine ⟨hInv.versionIdsNodup, List.pairwise_singleton _ _, ?_⟩
    intro a ha b hb
    rw [List.mem_singleton.mp hb, mkVersion_id]
    have := hInv.versionIdsBound a ha
    omega
  · -- versionEventExists
    intro v hv
    rw [appendVersionState_versions] at hv
    rw [appendVersionState_events]
    rcases List.mem_append.mp hv with hold | hnew
    · obtain ⟨e, he, heq⟩ := hInv.versionEventExists v hold
      exact ⟨setCurrentPtr ev.id st.nextVersionId e,
        List.mem_map_of_mem _ he, by rw [setCurrentPtr_id]; exact heq⟩
    · rw [List.mem_singleton.mp hnew]
      exact ⟨setCurrentPtr ev.id st.nextVersionId ev,
        List.mem_map_of_mem _ hev, by rw [setCurrentPtr_id, mkVersion_event_id]⟩
  · -- numbering
    intro k
    have hvs := versionsOf_appendVersionState st ev.id (cur.version_number + 1) c uid k
    by_cases hk : ev.id = k
    · subst hk
      rw [if_pos rfl] at hvs
      unfold versionNumbersOf
      rw [hvs, List.map_append, List.length_append]
      have hn := hInv.numbering ev.id
      unfold versionNumbersOf at hn
      rw [hn]
      have hmap : List.map (fun v => v.version_number)
          [mkVersion st.nextVersionId ev.id (cur.version_number + 1) c uid] =
          [(versionsOf st ev.id).length + 1] := by
        simp [mkVersion, hcnum]
      rw [hmap]
      have hlen : ([mkVersion st.nextVersionId ev.id (cur.version_number + 1) c uid] :
          List EventVersion).length = 1 := rfl
      rw [hlen]
      exact (range'_concat_one _).symm
    · rw [if_neg hk, List.append_nil] at hvs
      unfold versionNumbersOf
      rw [hvs]
      exact hInv.numbering k
  · -- currentPtr
    intro e' he'
    rw [appendVersionState_events] at he'
    rw [appendVersionState_versions]
    obtain ⟨e, he, rfl⟩ := List.mem_map.mp he'
    by_cases hid : e.id = ev.id
    · refine ⟨mkVersion st.nextVersionId ev.id (cur.version_number + 1) c uid,
        List.mem_append_right _ (List.mem_singleton_self _), ?_, ?_, ?_⟩
      · simp [setCurrentPtr, hid, mkVersion]
      · rw [setCurrentPtr_id, hid, mkVersion_event_id]
      · rw [setCurrentPtr_id, hid, mkVersion_version_number]
        have hvs := versionsOf_appendVersionState st ev.id (cur.version_number + 1)
          c uid ev.id
        rw [if_pos rfl] at hvs
        rw [hvs, List.length_append]
        simp [hcnum]
    · obtain ⟨v, hv, hvp, hvev, hvn⟩ := hInv.currentPtr e he
      refine ⟨v, List.mem_append_left _ hv, ?_, ?_, ?_⟩
      · unfold setCurrentPtr
        rw [if_neg hid]
        exact hvp
      · rw [setCurrentPtr_id]; exact hvev
      · rw [setCurrentPtr_id]
        have hvs := versionsOf_appendVersionState st ev.id (cur.version_number + 1)
          c uid e.id
        rw [if_neg (fun h => hid h.symm), List.append_nil] at hvs
        rw [hvs]
        exact hvn
  · -- validAll
    intro v hv
    rw [appendVersionState_versions] at hv
    rcases List.mem_append.mp hv with hold | hnew
    · exact hInv.validAll v hold
    · rw [List.mem_singleton.mp hnew, contentOf_mkVersion]
      exact hc
  · -- ownerPerm
    intro e' he'
    rw [appendVersionState_events] at he'
    rw [appendVersionState_permissions]
    obtain ⟨e, he, rfl⟩ := List.mem_map.mp he'
    obtain ⟨p, hp, h1, h2, h3⟩ := hInv.ownerPerm e he
    exact ⟨p, hp, by rw [setCurrentPtr_id]; exact h1,
      by rw [setCurrentPtr_owner]; exact h2, h3⟩

theorem inv_createState {st : DBState} {c : EventContent} {owner : Nat}
    (hInv : Inv st) (hc : validContent c) : Inv (createState st c owner) := by
  have hfresh := versionsOf_fresh hInv
  refine ⟨?_, ?_, ?_, ?_, ?_, ?_, ?_, ?_, ?_⟩
  · -- eventIdsBound
    intro e he
    rw [createState_events] at he
    rw [createState_nextEventId]
    rcases List.mem_append.mp he with hold | hnew
    · exact Nat.lt_succ_of_lt (hInv.eventIdsBound e hold)
    · rw [List.mem_singleton.mp hnew]
      exact Nat.lt_succ_self _
  · -- versionIdsBound
    intro v hv
    rw [createState_versions] at hv
    rw [createState_nextVersionId]
    rcases List.mem_append.mp hv with hold | hnew
    · exact Nat.lt_succ_of_lt (hInv.versionIdsBound v hold)
    · rw [List.mem_singleton.mp hnew, mkVersion_id]
      exact Nat.lt_succ_self _
  · -- eventIdsNodup
    rw [createState_events, List.pairwise_append]
    refine ⟨hInv.eventIdsNodup, List.pairwise_singleton _ _, ?_⟩
    intro a ha b hb
    rw [List.mem_singleton.mp hb]
    show a.id ≠ st.nextEventId
    have := hInv.eventIdsBound a ha
    omega
  · -- versionIdsNodup
    rw [createState_versions, List.pairwise_append]
    refine ⟨hInv.versionIdsNodup, List.pairwise_singleton _ _, ?_⟩
    intro a ha b hb
    rw [List.mem_singleton.mp hb, mkVersion_id]
    have := hInv.versionIdsBound a ha
    omega
  · -- versionEventExists
    intro v hv
    rw [createState_versions] at hv
    rw [createState_events]
    rcases List.mem_append.mp hv with hold | hnew
    · obtain ⟨e, he, heq⟩ := hInv.versionEventExists v hold
      exact ⟨e, List.mem_append_left _ he, heq⟩
    · rw [List.mem_singleton.mp hnew]
      exact ⟨_, List.mem_append_right _ (List.mem_singleton_self _), rfl⟩
  · -- numbering
    intro k
    have hvs := versionsOf_createState st c owner k
    by_cases hk : st.nextEventId = k
    · subst hk
      rw [if_pos rfl] at hvs
      unfold versionNumbersOf
      rw [hvs, hfresh]
      simp [mkVersion, List.range']
    · rw [if_neg hk, List.append_nil] at hvs
      unfold versionNumbersOf
      rw [hvs]
      exact hInv.numbering k
  · -- currentPtr
    intro e he
    rw [createState_events] at he
    rw [createState_versions]
    rcases List.mem_append.mp he with hold | hnew
    · obtain ⟨v, hv, hvp, hvev, hvn⟩ := hInv.currentPtr e hold
      refine ⟨v, List.mem_append_left _ hv, hvp, hvev, ?_⟩
      have hvs := versionsOf_createState st c owner e.id
      have hne : st.nextEventId ≠ e.id := by
        have := hInv.eventIdsBound e hold
        omega
      rw [if_neg hne, List.append_nil] at hvs
      rw [hvs]
      exact hvn
    · rw [List.mem_singleton.mp hnew]
      refine ⟨mkVersion st.nextVersionId st.nextEventId 1 c owner,
        List.mem_append_right _ (List.mem_singleton_self _), rfl, rfl, ?_⟩
      show (mkVersion st.nextVersionId st.nextEventId 1 c owner).version_number =
        (versionsOf (createState st c owner) st.nextEventId).length
      have hvs := versionsOf_createState st c owner st.nextEventId
      rw [if_pos rfl] at hvs
      rw [hvs, hfresh, mkVersion_version_number]
      rfl
  · -- validAll
    intro v hv
    rw [createState_versions] at hv
    rcases List.mem_append.mp hv with hold | hnew
    · exact hInv.validAll v hold
    · rw [List.mem_singleton.mp hnew, contentOf_mkVersion]
      exact hc
  · -- ownerPerm
    intro e he
    rw [createState_events] at he
    rw [createState_permissions]
    rcases List.mem_append.mp he with hold | hnew
    · obtain ⟨p, hp, h1, h2, h3⟩ := hInv.ownerPerm e hold
      exact ⟨p, List.mem_append_left _ hp, h1, h2, h3⟩
    · rw [List.mem_singleton.mp hnew]
      exact ⟨_, List.mem_append_right _ (List.mem_singleton_self _), rfl, rfl, rfl⟩

theorem validate_implies_valid {c : EventContent}
    (h : validateEventCreate c = true) : validContent c := by
  unfold validateEventCreate at h
  rw [Bool.and_eq_true, Bool.and_eq_true] at h
  obtain ⟨⟨_, hrec⟩, hlt⟩ := h
  refine ⟨by simpa using hlt, ?_, ?_⟩
  · intro hr
    rw [hr] at hrec
    simpa using hrec
  · intro hr
    rw [hr] at hrec
    simpa using hrec

/-- Shape of a successful `create_new_event`. -/
theorem create_new_event_ok {st st' : DBState} {d : EventContent} {o : Nat}
    {ok : Bool} {eid : Nat}
    (h : create_new_event st d o ok = .ok (st', eid)) :
    validateEventCreate d = true ∧ st' = createState st d o ∧ eid = st.nextEventId := by
  unfold create_new_event create_event_with_version at h
  split at h
  · split at h
    · obtain ⟨h1, h2⟩ := Prod.mk.injEq .. ▸ Except.ok.inj h
      exact ⟨by assumption, h1.symm, h2.symm⟩
    · cases h
  · cases h

/-- Shape of a successful `update_event_with_version`: either one of the
two no-op short-circuits, or a version-creating commit with validated
merged content. -/
theorem update_event_ok {st st' : DBState} {eid : Nat} {u : EventUpdate}
    {uid : Nat} {ok : Bool}
    (h : update_event_with_version st eid u uid ok = .ok st') :
    st' = st ∨
    ∃ ev cur, findEvent st eid = some ev ∧ currentVersion st ev = some cur ∧
      validContent (mergedContent (contentOfVersion cur) u) ∧
      st' = appendVersionState st ev.id (cur.version_number + 1)
              (mergedContent (contentOfVersion cur) u) uid := by
  unfold update_event_with_version at h
  split at h
  · exact Except.noConfusion h
  rename_i ev hfe
  split at h
  · exact Except.noConfusion h
  rename_i cur hcv
  split_ifs at h with h1 h2 h3 h4 h5 h6
  all_goals try exact Or.inl (Except.ok.inj h).symm
  refine Or.inr ⟨ev, cur, hfe, hcv, ⟨?_, ?_, ?_⟩, (Except.ok.inj h).symm⟩
  · omega
  · intro hr
    by_contra hpt
    exact h3 ⟨hr, by simpa using hpt⟩
  · intro hr
    by_contra hpt
    exact h4 ⟨hr, hpt⟩

/-- Shape of a successful `rollback_event_to_version`. -/
theorem rollback_event_ok {st st' : DBState} {eid vid uid : Nat} {ok : Bool}
    (h : rollback_event_to_version st eid vid uid ok = .ok st') :
    ∃ ev cur tgt, findEvent st eid = some ev ∧ currentVersion st ev = some cur ∧
      findVersionById st vid = some tgt ∧ tgt.event_id = ev.id ∧
      st' = appendVersionState st ev.id (cur.version_number + 1)
              (contentOfVersion tgt) uid := by
  unfold rollback_event_to_version at h
  split at h
  · exact Except.noConfusion h
  rename_i ev hfe
  split at h
  · exact Except.noConfusion h
  rename_i cur hcv
  split at h
  · exact Except.noConfusion h
  rename_i tgt htv
  split_ifs at h with hmm hok
  exact ⟨ev, cur, tgt, hfe, hcv, htv, not_not.mp hmm, (Except.ok.inj h).symm⟩

/-- Every operation preserves the store invariant. -/
theorem inv_applyOp {st : DBState} (op : Op) (hInv : Inv st) :
    Inv (applyOp st op) := by
  cases op with
  | createE d o ok =>
    show Inv (resultStateD st ((create_new_event st d o ok).map Prod.fst))
    cases h : create_new_event st d o ok with
    | error e => exact hInv
    | ok res =>
      obtain ⟨st1, eid⟩ := res
      obtain ⟨hval, hst, _⟩ := create_new_event_ok h
      show Inv st1
      rw [hst]
      exact inv_createState hInv (validate_implies_valid hval)
  | updateE eid u uid ok =>
    show Inv (resultStateD st (update_event_with_version st eid u uid ok))
    cases h : update_event_with_version st eid u uid ok with
    | error e => exact hInv
    | ok st' =>
      show Inv st'
      rcases update_event_ok h with rfl | ⟨ev, cur, hfe, hcv, hvc, rfl⟩
      · exact hInv
      · exact inv_appendVersionState hInv (findEvent_eq_some hfe).1 hcv hvc
  | rollbackE eid vid uid ok =>
    show Inv (resultStateD st (rollback_event_to_version st eid vid uid ok))
    cases h : rollback_event_to_version st eid vid uid ok with
    | error e => exact hInv
    | ok st' =>
      show Inv st'
      obtain ⟨ev, cur, tgt, hfe, hcv, htv, _, rfl⟩ := rollback_event_ok h
      exact inv_appendVersionState hInv (findEvent_eq_some hfe).1 hcv
        (hInv.validAll tgt (findVersionById_eq_some htv).1)

/-- The fresh store satisfies the invariant. -/
theorem inv_initState (users : List Nat) : Inv (initState users) := by
  refine ⟨?_, ?_, ?_, ?_, ?_, ?_, ?_, ?_, ?_⟩ <;>
    simp [initState, versionsOf, versionNumbersOf]

theorem inv_foldl (ops : List Op) :
    ∀ st : DBState, Inv st → Inv (ops.foldl applyOp st) := by
  induction ops with
  | nil => intro st h; exact h
  | cons op rest ih =>
    intro st h
    exact ih (applyOp st op) (inv_applyOp op h)

/-- Every state reachable through create/update/rollback traces satisfies
the invariant. -/
theorem inv_applyTrace (users : List Nat) (ops : List Op) :
    Inv (applyTrace users ops) :=
  inv_foldl ops (initState users) (inv_initState users)

/-! ## Counting version-creating operations -/

/-- Every operation only ever appends version rows; none are modified or
deleted. -/
theorem versions_applyOp_append (st : DBState) (op : Op) :
    ∃ tail, (applyOp st op).versions = st.versions ++ tail := by
  cases op with
  | createE d o ok =>
    show ∃ tail, (resultStateD st ((create_new_event st d o ok).map Prod.fst)).versions
      = st.versions ++ tail
    cases h : create_new_event st d o ok with
    | error e => exact ⟨[], (List.append_nil _).symm⟩
    | ok res =>
      obtain ⟨st1, eid⟩ := res
      obtain ⟨_, hst, _⟩ := create_new_event_ok h
      show ∃ tail, st1.versions = st.versions ++ tail
      rw [hst, createState_versions]
      exact ⟨_, rfl⟩
  | updateE eid u uid ok =>
    show ∃ tail, (resultStateD st (update_event_with_version st eid u uid ok)).versions
      = st.versions ++ tail
    cases h : update_event_with_version st eid u uid ok with
    | error e => exact ⟨[], (List.append_nil _).symm⟩
    | ok st' =>
      show ∃ tail, st'.versions = st.versions ++ tail
      rcases update_event_ok h with rfl | ⟨ev, cur, _, _, _, rfl⟩
      · exact ⟨[], (List.append_nil _).symm⟩
      · rw [appendVersionState_versions]
        exact ⟨_, rfl⟩
  | rollbackE eid vid uid ok =>
    show ∃ tail, (resultStateD st (rollback_event_to_version st eid vid uid ok)).versions
      = st.versions ++ tail
    cases h : rollback_event_to_version st eid vid uid ok with
    | error e => exact ⟨[], (List.append_nil _).symm⟩
    | ok st' =>
      show ∃ tail, st'.versions = st.versions ++ tail
      obtain ⟨ev, cur, tgt, _, _, _, _, rfl⟩ := rollback_event_ok h
      rw [appendVersionState_versions]
      exact ⟨_, rfl⟩

theorem versionsOf_length_mono_applyOp (st : DBState) (op : Op) (k : Nat) :
    (versionsOf st k).length ≤ (versionsOf (applyOp st op) k).length := by
  obtain ⟨tail, htail⟩ := versions_applyOp_append st op
  unfold versionsOf
  rw [htail, List.filter_append, List.length_append]
  exact Nat.le_add_right _ _

theorem versionsOf_length_mono_foldl (ops : List Op) :
    ∀ (st : DBState) (k : Nat),
      (versionsOf st k).length ≤ (versionsOf (ops.foldl applyOp st) k).length := by
  induction ops with
  | nil => intro st k; exact Nat.le_refl _
  | cons op rest ih =>
    intro st k
    exact Nat.le_trans (versionsOf_length_mono_applyOp st op k) (ih (applyOp st op) k)

/-- The count of version-creating operations telescopes to the total number
of stored versions gained along the trace. -/
theorem versionCreatingOpCount_eq (ops : List Op) :
    ∀ (st : DBState) (k : Nat),
      versionCreatingOpCount st ops k =
        (versionsOf (ops.foldl applyOp st) k).length - (versionsOf st k).length := by
  induction ops with
  | nil => intro st k; simp [versionCreatingOpCount]
  | cons op rest ih =>
    intro st k
    unfold versionCreatingOpCount
    rw [ih (applyOp st op) k]
    have h1 := versionsOf_length_mono_applyOp st op k
    have h2 := versionsOf_length_mono_foldl rest (applyOp st op) k
    simp only [List.foldl_cons]
    omega

/-! ## Claim theorems -/

/-- Claim C1: after any trace of create/update/rollback operations, each event's
stored version numbers are exactly 1..N in order, where N is the number of
operations of the trace that created a version for that event: creation
writes version 1 and every version-creating update/rollback writes the
current version number plus one, leaving no gaps. -/
theorem claim1_version_numbers_no_gaps (users : List Nat) (ops : List Op) (eid : Nat) :
    versionNumbersOf (applyTrace users ops) eid =
      List.range' 1 (versionCreatingOpCount (initState users) ops eid) := by
  have hInv := inv_applyTrace users ops
  rw [hInv.numbering eid]
  congr 1
  rw [versionCreatingOpCount_eq]
  have hinit : versionsOf (initState users) eid = [] := rfl
  unfold applyTrace
  rw [hinit]
  simp

/-- Claim C2: createEvent is atomic.  On success the Event row, its version
number 1, the current-version pointer to it, and the OWNER permission all
exist together in the new state; on failure the transaction was rolled
back and the state is unchanged; consequently no reachable state contains
an event without a current version or without an owner permission row. -/
theorem claim2_create_event_atomic :
    (∀ (st : DBState) (data : EventContent) (owner : Nat) (ok : Bool)
        (st' : DBState) (eid : Nat),
        create_new_event st data owner ok = .ok (st', eid) →
        ∃ ev ∈ st'.events, ev.id = eid ∧ ev.owner_id = owner ∧
          ∃ v ∈ st'.versions, ev.current_version_id = some v.id ∧
            v.event_id = eid ∧ v.version_number = 1 ∧
            v.changed_by_user_id = owner ∧
            ∃ p ∈ st'.permissions, p.event_id = eid ∧ p.user_id = owner ∧
              p.role = RoleEnum.owner) ∧
    (∀ (st : DBState) (data : EventContent) (owner : Nat) (ok : Bool)
        (e : CrudFailure),
        create_new_event st data owner ok = .error e →
        applyOp st (.createE data owner ok) = st) ∧
    (∀ (users : List Nat) (ops : List Op),
        ∀ e ∈ (applyTrace users ops).events,
          (∃ v ∈ (applyTrace users ops).versions,
             e.current_version_id = some v.id ∧ v.event_id = e.id) ∧
          (∃ p ∈ (applyTrace users ops).permissions,
             p.event_id = e.id ∧ p.user_id = e.owner_id ∧ p.role = RoleEnum.owner)) := by
  refine ⟨?_, ?_, ?_⟩
  · intro st data owner ok st' eid h
    obtain ⟨_, hst, heid⟩ := create_new_event_ok h
    subst hst
    subst heid
    refine ⟨{ id := st.nextEventId, owner_id := owner,
              current_version_id := some st.nextVersionId }, ?_, rfl, rfl, ?_⟩
    · rw [createState_events]
      exact List.mem_append_right _ (List.mem_singleton_self _)
    · refine ⟨mkVersion st.nextVersionId st.nextEventId 1 data owner, ?_, rfl, rfl,
        rfl, rfl, ?_⟩
      · rw [createState_versions]
        exact List.mem_append_right _ (List.mem_singleton_self _)
      · refine ⟨{ id := st.nextPermissionId, event_id := st.nextEventId,
                  user_id := owner, role := RoleEnum.owner }, ?_, rfl, rfl, rfl⟩
        rw [createState_permissions]
        exact List.mem_append_right _ (List.mem_singleton_self _)
  · intro st data owner ok e h
    show resultStateD st ((create_new_event st data owner ok).map Prod.fst) = st
    rw [h]
    rfl
  · intro users ops e he
    have hInv := inv_applyTrace users ops
    obtain ⟨v, hv, hvp, hvev, _⟩ := hInv.currentPtr e he
    exact ⟨⟨v, hv, hvp, hvev⟩, hInv.ownerPerm e he⟩

/-- Witness for C2 at a concrete input: a successful creation in the fresh
store, with all four rows exhibited. -/
theorem claim2_witness :
    ∃ ev ∈ (createState (initState [7])
        { title := "Standup", description := none, start_time := 0, end_time := 3600,
          location := none, is_recurring := false, recurrence_pattern := none }
        7).events,
      ev.id = 1 ∧ ev.owner_id = 7 ∧
      ∃ v ∈ (createState (initState [7])
          { title := "Standup", description := none, start_time := 0, end_time := 3600,
            location := none, is_recurring := false, recurrence_pattern := none }
          7).versions,
        ev.current_version_id = some v.id ∧ v.event_id = 1 ∧ v.version_number = 1 ∧
        v.changed_by_user_id = 7 ∧
        ∃ p ∈ (createState (initState [7])
            { title := "Standup", description := none, start_time := 0, end_time := 3600,
              location := none, is_recurring := false, recurrence_pattern := none }
            7).permissions,
          p.event_id = 1 ∧ p.user_id = 7 ∧ p.role = RoleEnum.owner :=
  claim2_create_event_atomic.1 (initState [7])
    { title := "Standup", description := none, start_time := 0, end_time := 3600,
      location := none, is_recurring := false, recurrence_pattern := none }
    7 true _ 1 rfl

/-- Claim C7: every persisted version satisfies the content invariant (end after
start; recurring versions carry a non-empty pattern; non-recurring versions
carry none), and updateEvent re-validates the merged content: a partial
that only changes `end_time` to a value not after the carried-over
`start_time` fails with the end/start ValidationError and creates no
version. -/
theorem claim7_version_content_invariant :
    (∀ (users : List Nat) (ops : List Op),
        ∀ v ∈ (applyTrace users ops).versions,
          v.start_time < v.end_time ∧
          (v.is_recurring = true → patternTruthy v.recurrence_pattern = true) ∧
          (v.is_recurring = false → v.recurrence_pattern = none)) ∧
    (∀ (st : DBState) (eid : Nat) (ev : Event) (cur : EventVersion) (x : Int)
        (uid : Nat) (ok : Bool),
        findEvent st eid = some ev → currentVersion st ev = some cur →
        validContent (contentOfVersion cur) → x ≤ cur.start_time →
        update_event_with_version st eid { noUpdate with end_time := some x } uid ok =
          .error .endNotAfterStart ∧
        applyOp st (.updateE eid { noUpdate with end_time := some x } uid ok) = st) := by
  constructor
  · intro users ops v hv
    exact (inv_applyTrace users ops).validAll v hv
  · intro st eid ev cur x uid ok hfe hcv hvalid hx
    have hlt : cur.start_time < cur.end_time := hvalid.1
    have hrec1 : cur.is_recurring = true → patternTruthy cur.recurrence_pattern = true :=
      hvalid.2.1
    have hrec2 : cur.is_recurring = false → cur.recurrence_pattern = none := hvalid.2.2
    have hmain : update_event_with_version st eid
        { noUpdate with end_time := some x } uid ok = .error .endNotAfterStart := by
      unfold update_event_with_version
      rw [hfe]
      simp only
      rw [hcv]
      simp only
      split_ifs with h1 h2 h3 h4 h5 h6
      · exact absurd h1 (by simp [anySet, noUpdate])
      · exfalso
        simp only [hasChanges, fieldChanged, noUpdate, contentOfVersion] at h2
        simp at h2
        omega
      · exfalso
        simp only [mergedContent, noUpdate, contentOfVersion, Option.getD] at h3
        exact absurd (hrec1 h3.1) (by simp [h3.2])
      · exfalso
        simp only [mergedContent, noUpdate, contentOfVersion, Option.getD] at h4
        exact absurd (hrec2 h4.1) h4.2
      · rfl
      · exfalso
        simp only [mergedContent, noUpdate, contentOfVersion, Option.getD] at h5
        exact h5 hx
      · exfalso
        simp only [mergedContent, noUpdate, contentOfVersion, Option.getD] at h5
        exact h5 hx
    refine ⟨hmain, ?_⟩
    show resultStateD st (update_event_with_version st eid
      { noUpdate with end_time := some x } uid ok) = st
    rw [hmain]
    rfl

/-! ## Concrete fixtures used by the witnesses -/

/-- A small content value. -/
def wContent : EventContent :=
  { title := "Planning", description := none, start_time := 0, end_time := 3600,
    location := none, is_recurring := false, recurrence_pattern := none }

/-- Version 1 of the fixture event. -/
def wVersion1 : EventVersion := mkVersion 1 1 1 wContent 1

/-- Version 2 of the fixture event (a retitle). -/
def wVersion2 : EventVersion :=
  { wVersion1 with id := 2, version_number := 2, title := "Planning v2" }

/-- A store with one event (owner user 1, current version 2) shared with
user 2 as EDITOR. -/
def wState : DBState :=
  { users := [1, 2, 3],
    events := [{ id := 1, owner_id := 1, current_version_id := some 2 }],
    versions := [wVersion1, wVersion2],
    permissions := [{ id := 1, event_id := 1, user_id := 1, role := RoleEnum.owner },
                    { id := 2, event_id := 1, user_id := 2, role := RoleEnum.editor }],
    nextEventId := 2, nextVersionId := 3, nextPermissionId := 3 }

/-- Witness for C7: updating the fixture event with a payload that only
sets `end_time` to the carried-over `start_time` fails the merged
validation and leaves the store unchanged. -/
theorem claim7_witness :
    update_event_with_version wState 1 { noUpdate with end_time := some 0 } 2 true =
      .error .endNotAfterStart ∧
    applyOp wState (.updateE 1 { noUpdate with end_time := some 0 } 2 true) = wState :=
  claim7_version_content_invariant.2 wState 1
    { id := 1, owner_id := 1, current_version_id := some 2 } wVersion2 0 2 true
    (by decide) (by decide) (by unfold validContent; decide) (by decide)

/-- Claim C4: for an event whose loaded current version is numbered N and a
target version belonging to it, rollback commits exactly one new version
numbered N+1 whose content fields are copied verbatim from the target and
which is attributed to the caller, repoints the current-version pointer to
it, and appends it after the existing version rows, none of which is
modified, deleted, or reordered (the permission table is untouched too). -/
theorem claim4_rollback_copies_target (st : DBState) (eid vid uid : Nat)
    (ev : Event) (cur tgt : EventVersion)
    (hfe : findEvent st eid = some ev)
    (hcv : currentVersion st ev = some cur)
    (htv : findVersionById st vid = some tgt)
    (hbelongs : tgt.event_id = ev.id) :
    rollback_event_to_version st eid vid uid true =
      .ok (appendVersionState st ev.id (cur.version_number + 1)
             (contentOfVersion tgt) uid) ∧
    (appendVersionState st ev.id (cur.version_number + 1)
        (contentOfVersion tgt) uid).versions =
      st.versions ++ [mkVersion st.nextVersionId ev.id (cur.version_number + 1)
                        (contentOfVersion tgt) uid] ∧
    (mkVersion st.nextVersionId ev.id (cur.version_number + 1)
        (contentOfVersion tgt) uid).title = tgt.title ∧
    (mkVersion st.nextVersionId ev.id (cur.version_number + 1)
        (contentOfVersion tgt) uid).description = tgt.description ∧
    (mkVersion st.nextVersionId ev.id (cur.version_number + 1)
        (contentOfVersion tgt) uid).start_time = tgt.start_time ∧
    (mkVersion st.nextVersionId ev.id (cur.version_number + 1)
        (contentOfVersion tgt) uid).end_time = tgt.end_time ∧
    (mkVersion st.nextVersionId ev.id (cur.version_number + 1)
        (contentOfVersion tgt) uid).location = tgt.location ∧
    (mkVersion st.nextVersionId ev.id (cur.version_number + 1)
        (contentOfVersion tgt) uid).is_recurring = tgt.is_recurring ∧
    (mkVersion st.nextVersionId ev.id (cur.version_number + 1)
        (contentOfVersion tgt) uid).recurrence_pattern = tgt.recurrence_pattern ∧
    (mkVersion st.nextVersionId ev.id (cur.version_number + 1)
        (contentOfVersion tgt) uid).version_number = cur.version_number + 1 ∧
    (mkVersion st.nextVersionId ev.id (cur.version_number + 1)
        (contentOfVersion tgt) uid).changed_by_user_id = uid ∧
    (appendVersionState st ev.id (cur.version_number + 1)
        (contentOfVersion tgt) uid).events =
      st.events.map (setCurrentPtr ev.id st.nextVersionId) ∧
    (setCurrentPtr ev.id st.nextVersionId ev).current_version_id =
      some (mkVersion st.nextVersionId ev.id (cur.version_number + 1)
              (contentOfVersion tgt) uid).id ∧
    (appendVersionState st ev.id (cur.version_number + 1)
        (contentOfVersion tgt) uid).permissions = st.permissions := by
  refine ⟨?_, rfl, rfl, rfl, rfl, rfl, rfl, rfl, rfl, rfl, rfl, rfl, ?_, rfl⟩
  · unfold rollback_event_to_version
    rw [hfe]
    simp only
    rw [hcv]
    simp only
    rw [htv]
    simp only
    rw [if_neg (not_not_intro hbelongs), if_pos trivial]
  · simp [setCurrentPtr, mkVersion]

/-- Witness for C4: rolling the fixture event back to version 1. -/
theorem claim4_witness :
    rollback_event_to_version wState 1 1 2 true =
      .ok (appendVersionState wState 1 3 (contentOfVersion wVersion1) 2) :=
  (claim4_rollback_copies_target wState 1 1 2
    { id := 1, owner_id := 1, current_version_id := some 2 } wVersion2 wVersion1
    (by decide) (by decide) (by decide) (by decide)).1

/-- Whether a supplied field equals the value carried by the current
version. -/
def fieldMatches {α : Type} [DecidableEq α] (o : Option α) (c : α) : Bool :=
  match o with
  | none => true
  | some v => c == v

/-- Every supplied field of the payload equals the corresponding field of
the current content (unsupplied fields are unconstrained). -/
def matchesCurrent (cur : EventContent) (u : EventUpdate) : Bool :=
  fieldMatches u.title cur.title &&
  fieldMatches u.description cur.description &&
  fieldMatches u.start_time cur.start_time &&
  fieldMatches u.end_time cur.end_time &&
  fieldMatches u.location cur.location &&
  fieldMatches u.is_recurring cur.is_recurring &&
  fieldMatches u.recurrence_pattern cur.recurrence_pattern

theorem fieldChanged_eq_false {α : Type} [DecidableEq α] {o : Option α} {c : α}
    (h : fieldMatches o c = true) : fieldChanged o c = false := by
  cases o with
  | none => rfl
  | some v =>
    simp only [fieldMatches, beq_iff_eq] at h
    simp [fieldChanged, h]

theorem hasChanges_eq_false {cur : EventContent} {u : EventUpdate}
    (h : matchesCurrent cur u = true) : hasChanges cur u = false := by
  unfold matchesCurrent at h
  simp only [Bool.and_eq_true] at h
  obtain ⟨⟨⟨⟨⟨⟨h1, h2⟩, h3⟩, h4⟩, h5⟩, h6⟩, h7⟩ := h
  unfold hasChanges
  rw [fieldChanged_eq_false h1, fieldChanged_eq_false h2, fieldChanged_eq_false h3,
    fieldChanged_eq_false h4, fieldChanged_eq_false h5, fieldChanged_eq_false h6,
    fieldChanged_eq_false h7]
  rfl

/-- Claim C5: updateEvent is idempotent on a no-change payload: when every
supplied field equals the current version's field (including the empty
payload), no version is created and the store is returned unchanged, so
the event keeps its current version number. -/
theorem claim5_update_noop_idempotent (st : DBState) (eid uid : Nat) (ok : Bool)
    (ev : Event) (cur : EventVersion) (upd : EventUpdate)
    (hfe : findEvent st eid = some ev)
    (hcv : currentVersion st ev = some cur)
    (hmatch : matchesCurrent (contentOfVersion cur) upd = true) :
    update_event_with_version st eid upd uid ok = .ok st := by
  unfold update_event_with_version
  rw [hfe]
  simp only
  rw [hcv]
  simp only
  by_cases h1 : anySet upd = false
  · rw [if_pos h1]
  · rw [if_neg h1, if_pos (hasChanges_eq_false hmatch)]

/-- Witness for C5: re-supplying the fixture event's current title and end
time changes nothing. -/
theorem claim5_witness :
    update_event_with_version wState 1
      { noUpdate with title := some "Planning v2", end_time := some 3600 } 2 true =
      .ok wState :=
  claim5_update_noop_idempotent wState 1 2 true
    { id := 1, owner_id := 1, current_version_id := some 2 } wVersion2
    { noUpdate with title := some "Planning v2", end_time := some 3600 }
    (by decide) (by decide) (by decide)

/-- Claim C8: granting a pair that already holds a permission row is idempotent
on the same role (no-op success returning the existing row, store
unchanged) and a conflict on a different role (the owner-tamper or
duplicate-permission error, both ConflictError in the spec's taxonomy,
with the stored role unchanged). -/
theorem claim8_grant_conflict_or_noop :
    (∀ (st : DBState) (eid uid : Nat) (ev : Event) (p : EventPermission) (ok : Bool),
        uid ∈ st.users → findEvent st eid = some ev →
        get_permission_by_event_and_user st eid uid = some p →
        (uid = ev.owner_id → p.role = RoleEnum.owner) →
        add_permission st eid uid p.role ok = .ok (st, p)) ∧
    (∀ (st : DBState) (eid uid : Nat) (ev : Event) (p : EventPermission)
        (r : RoleEnum) (ok : Bool),
        uid ∈ st.users → findEvent st eid = some ev →
        get_permission_by_event_and_user st eid uid = some p →
        (uid = ev.owner_id → p.role = RoleEnum.owner) →
        r ≠ p.role →
        (add_permission st eid uid r ok = .error .ownerRoleViaSharing ∨
         add_permission st eid uid r ok = .error .duplicatePermission)) := by
  constructor
  · intro st eid uid ev p ok hu hfe hp howner
    unfold add_permission
    rw [if_neg (by simpa using hu)]
    rw [hfe]
    simp only
    by_cases ho : ev.owner_id = uid
    · have hrole : p.role = RoleEnum.owner := howner ho.symm
      rw [if_neg (by simp [ho, hrole])]
      rw [if_pos ⟨ho, hrole⟩, hp]
    · rw [if_neg (by simp [ho])]
      rw [if_neg (by simp [ho])]
      simp only
      rw [hp]
      simp only
      rw [if_pos trivial]
  · intro st eid uid ev p r ok hu hfe hp howner hne
    unfold add_permission
    rw [if_neg (by simpa using hu)]
    rw [hfe]
    simp only
    by_cases ho : ev.owner_id = uid
    · have hrole : p.role = RoleEnum.owner := howner ho.symm
      left
      rw [if_pos ⟨ho, by rw [hrole] at hne; exact hne⟩]
    · right
      rw [if_neg (by simp [ho])]
      rw [if_neg (by simp [ho])]
      simp only
      rw [hp]
      simp only
      rw [if_neg (fun h => hne h.symm)]

/-- Witness for C8: re-granting EDITOR to user 2 is a no-op success, and
granting VIEWER to user 2 is rejected as a duplicate-permission conflict. -/
theorem claim8_witness :
    add_permission wState 1 2 RoleEnum.editor true =
      .ok (wState, { id := 2, event_id := 1, user_id := 2, role := RoleEnum.editor }) ∧
    (add_permission wState 1 2 RoleEnum.viewer true = .error .ownerRoleViaSharing ∨
     add_permission wState 1 2 RoleEnum.viewer true = .error .duplicatePermission) :=
  ⟨claim8_grant_conflict_or_noop.1 wState 1 2
      { id := 1, owner_id := 1, current_version_id := some 2 }
      { id := 2, event_id := 1, user_id := 2, role := RoleEnum.editor } true
      (by decide) (by decide) (by decide) (by decide),
   claim8_grant_conflict_or_noop.2 wState 1 2
      { id := 1, owner_id := 1, current_version_id := some 2 }
      { id := 2, event_id := 1, user_id := 2, role := RoleEnum.editor }
      RoleEnum.viewer true
      (by decide) (by decide) (by decide) (by decide) (by decide)⟩

/-- Claim C10: at the permission-removal endpoint, a caller holding EDITOR on the
event who is not its owner cannot remove their own permission: the request
fails with 403 Forbidden and the permission row is not deleted. -/
theorem claim10_editor_cannot_remove_self (st : DBState) (eid caller : Nat)
    (ev : Event) (p : EventPermission) (ok : Bool)
    (hfe : findEvent st eid = some ev)
    (hp : get_permission_by_event_and_user st eid caller = some p)
    (hrole : p.role = RoleEnum.editor)
    (hnotowner : ev.owner_id ≠ caller) :
    remove_user_access_to_event st eid caller caller ok = .error .forbidden403 ∧
    applyPermOp st (.revoke eid caller caller ok) = st := by
  have hmain : remove_user_access_to_event st eid caller caller ok =
      .error .forbidden403 := by
    unfold remove_user_access_to_event get_event_and_check_permission
    rw [hfe]
    simp only
    rw [hp]
    simp only
    rw [if_pos (by simp [hrole])]
    simp only
    rw [if_neg hnotowner]
    rw [if_pos ⟨trivial, hnotowner⟩]
  refine ⟨hmain, ?_⟩
  show resultStateD st (remove_user_access_to_event st eid caller caller ok) = st
  rw [hmain]
  rfl

/-- Witness for C10: the EDITOR user 2 cannot revoke their own access to
the fixture event. -/
theorem claim10_witness :
    remove_user_access_to_event wState 1 2 2 true = .error .forbidden403 ∧
    applyPermOp wState (.revoke 1 2 2 true) = wState :=
  claim10_editor_cannot_remove_self wState 1 2
    { id := 1, owner_id := 1, current_version_id := some 2 }
    { id := 2, event_id := 1, user_id := 2, role := RoleEnum.editor } true
    (by decide) (by decide) (by decide) (by decide)

/-! ## Permission-table lemmas for the owner-row invariant -/

theorem ownerOk_elim {st : DBState} {e : Event} (h : ownerOk st e = true) :
    ∃ q, ownerRows st e.id = [q] ∧ q.user_id = e.owner_id := by
  unfold ownerOk at h
  split at h
  · rename_i q heq
    exact ⟨q, heq, by simpa using h⟩
  · exact Bool.noConfusion h

theorem ownerOk_intro {st : DBState} {e : Event} {q : EventPermission}
    (heq : ownerRows st e.id = [q]) (hq : q.user_id = e.owner_id) :
    ownerOk st e = true := by
  unfold ownerOk
  rw [heq]
  simp [hq]

theorem mem_ownerRows {st : DBState} {k : Nat} {p : EventPermission} :
    p ∈ ownerRows st k ↔
      p ∈ st.permissions ∧ p.event_id = k ∧ p.role = RoleEnum.owner := by
  unfold ownerRows
  rw [List.mem_filter]
  simp [and_assoc]

theorem pairKeysUnique_inj {l : List EventPermission} (hu : pairKeysUnique l = true)
    {p q : EventPermission} (hp : p ∈ l) (hq : q ∈ l)
    (he : p.event_id = q.event_id) (husr : p.user_id = q.user_id) : p = q := by
  induction l with
  | nil => cases hp
  | cons x t ih =>
    simp only [pairKeysUnique, Bool.and_eq_true] at hu
    obtain ⟨hall, hrest⟩ := hu
    rw [List.all_eq_true] at hall
    rcases List.mem_cons.mp hp with rfl | hp' <;>
      rcases List.mem_cons.mp hq with rfl | hq'
    · rfl
    · have hq2 := hall q hq'
      rw [Bool.not_eq_true'] at hq2
      rw [← he, ← husr] at hq2
      simp at hq2
    · have hq2 := hall p hp'
      rw [Bool.not_eq_true'] at hq2
      rw [he, husr] at hq2
      simp at hq2
    · exact ih hrest hp' hq'

/-- The row keyed by an event's owner is the event's unique OWNER row, so
it carries role OWNER. -/
theorem owner_row_role {st : DBState} (hPerm : PermInv st) {ev : Event}
    (hmem : ev ∈ st.events) {x : EventPermission} (hx : x ∈ st.permissions)
    (hxe : x.event_id = ev.id) (hxu : x.user_id = ev.owner_id) :
    x.role = RoleEnum.owner := by
  obtain ⟨q, hqrows, hqu⟩ := ownerOk_elim (hPerm.2 ev hmem)
  have hqmem : q ∈ ownerRows st ev.id := by rw [hqrows]; exact List.mem_singleton_self q
  obtain ⟨hq1, hq2, hq3⟩ := mem_ownerRows.mp hqmem
  have hx_eq : x = q :=
    pairKeysUnique_inj hPerm.1 hx hq1 (by rw [hxe, hq2]) (by rw [hxu, hqu])
  rw [hx_eq]
  exact hq3

theorem updRoleFn_event_id (eid uid : Nat) (r : RoleEnum) (p : EventPermission) :
    (updRoleFn eid uid r p).event_id = p.event_id := by
  unfold updRoleFn
  split <;> rfl

theorem updRoleFn_user_id (eid uid : Nat) (r : RoleEnum) (p : EventPermission) :
    (updRoleFn eid uid r p).user_id = p.user_id := by
  unfold updRoleFn
  split <;> rfl

theorem all_congr_mem {α : Type} {p q : α → Bool} :
    ∀ l : List α, (∀ a ∈ l, p a = q a) → l.all p = l.all q := by
  intro l
  induction l with
  | nil => intro _; rfl
  | cons x t ih =>
    intro h
    simp only [List.all_cons, h x (List.mem_cons_self x t),
      ih (fun a ha => h a (List.mem_cons_of_mem x ha))]

theorem pairKeysUnique_map_updRole (eid uid : Nat) (r : RoleEnum) :
    ∀ l : List EventPermission,
      pairKeysUnique (l.map (updRoleFn eid uid r)) = pairKeysUnique l := by
  intro l
  induction l with
  | nil => rfl
  | cons x t ih =>
    simp only [List.map_cons, pairKeysUnique, List.all_map, ih]
    congr 1
    apply all_congr_mem
    intro q _
    simp [Function.comp, updRoleFn_event_id, updRoleFn_user_id]

theorem pairKeysUnique_filter {keep : EventPermission → Bool} :
    ∀ {l : List EventPermission}, pairKeysUnique l = true →
      pairKeysUnique (l.filter keep) = true := by
  intro l
  induction l with
  | nil => intro _; rfl
  | cons x t ih =>
    intro hu
    simp only [pairKeysUnique, Bool.and_eq_true] at hu
    obtain ⟨hall, hrest⟩ := hu
    by_cases hk : keep x = true
    · rw [List.filter_cons_of_pos hk]
      simp only [pairKeysUnique, Bool.and_eq_true]
      refine ⟨?_, ih hrest⟩
      rw [List.all_eq_true] at hall ⊢
      intro q hq
      exact hall q (List.mem_of_mem_filter hq)
    · rw [List.filter_cons_of_neg (by simpa using hk)]
      exact ih hrest

theorem filter_map_eq_filter {l : List EventPermission}
    {g : EventPermission → EventPermission} {pred : EventPermission → Bool}
    (h : ∀ x ∈ l, g x = x ∨ (pred x = false ∧ pred (g x) = false)) :
    (l.map g).filter pred = l.filter pred := by
  induction l with
  | nil => rfl
  | cons x t ih =>
    have ht := ih (fun a ha => h a (List.mem_cons_of_mem x ha))
    rcases h x (List.mem_cons_self x t) with hgx | ⟨hp, hpg⟩
    · simp only [List.map_cons, hgx, List.filter_cons, ht]
    · simp only [List.map_cons, List.filter_cons, hp, hpg, ht]
      rfl

theorem filter_filter_keep {l : List EventPermission}
    {keep pred : EventPermission → Bool}
    (h : ∀ x ∈ l, pred x = true → keep x = true) :
    (l.filter keep).filter pred = l.filter pred := by
  induction l with
  | nil => rfl
  | cons x t ih =>
    have ht := ih (fun a ha hp => h a (List.mem_cons_of_mem x ha) hp)
    by_cases hk : keep x = true
    · rw [List.filter_cons_of_pos hk]
      simp only [List.filter_cons, ht]
    · have hp : pred x = false := by
        cases hpx : pred x
        · rfl
        · exact absurd (h x (List.mem_cons_self x t) hpx) hk
      rw [List.filter_cons_of_neg (by simpa using hk), List.filter_cons, hp, ht]
      rfl

/-! ## Endpoint characterizations -/

theorem gate_ok {st : DBState} {eid caller : Nat} {allowed : List RoleEnum}
    {ev : Event}
    (h : get_event_and_check_permission st eid caller allowed = .ok ev) :
    findEvent st eid = some ev ∧
    ∃ p, get_permission_by_event_and_user st eid caller = some p ∧
      p.role ∈ allowed := by
  unfold get_event_and_check_permission at h
  split at h
  · exact Except.noConfusion h
  rename_i ev0 hfe
  split at h
  · exact Except.noConfusion h
  rename_i p hp
  split_ifs at h with hr
  obtain rfl := Except.ok.inj h
  exact ⟨hfe, p, hp, hr⟩

theorem update_user_permission_ok {st st' : DBState} {eid uid : Nat}
    {r : RoleEnum} {ok : Bool} {res : Option EventPermission}
    (h : update_user_permission st eid uid r ok = .ok (st', res)) :
    (res = none ∧ st' = st) ∨
    ((∃ q, res = some q) ∧ st' = updatedPermState st eid uid r) := by
  unfold update_user_permission at h
  split at h
  · left
    have heq := Except.ok.inj h
    rw [Prod.mk.injEq] at heq
    exact ⟨heq.2.symm, heq.1.symm⟩
  rename_i p hp
  split at h
  · rename_i ev hev
    split_ifs at h with hg hok
    have heq := Except.ok.inj h
    rw [Prod.mk.injEq] at heq
    exact Or.inr ⟨⟨_, heq.2.symm⟩, heq.1.symm⟩
  · split_ifs at h with hok
    have heq := Except.ok.inj h
    rw [Prod.mk.injEq] at heq
    exact Or.inr ⟨⟨_, heq.2.symm⟩, heq.1.symm⟩

theorem remove_user_permission_ok {st st' : DBState} {eid uid : Nat} {ok : Bool}
    {flag : Bool}
    (h : remove_user_permission st eid uid ok = .ok (st', flag)) :
    st' = removedPermState st eid uid := by
  unfold remove_user_permission at h
  split at h
  · rename_i ev hev
    split_ifs at h with hg hok
    have heq := Except.ok.inj h
    rw [Prod.mk.injEq] at heq
    exact heq.1.symm
  · split_ifs at h with hok
    have heq := Except.ok.inj h
    rw [Prod.mk.injEq] at heq
    exact heq.1.symm

theorem update_endpoint_ok {st st' : DBState} {eid uid : Nat} {r : RoleEnum}
    {caller : Nat} {ok : Bool}
    (h : update_user_event_permission st eid uid r caller ok = .ok st') :
    ∃ ev, findEvent st eid = some ev ∧
      ¬(r = RoleEnum.owner ∧ ev.owner_id ≠ uid) ∧
      ¬(ev.owner_id = uid ∧ r ≠ RoleEnum.owner) ∧
      st' = updatedPermState st eid uid r := by
  unfold update_user_event_permission at h
  split at h
  · exact Except.noConfusion h
  split at h
  · exact Except.noConfusion h
  rename_i ev hev
  split_ifs at h with hg1 hg2
  split at h
  · exact Except.noConfusion h
  · exact Except.noConfusion h
  · exact Except.noConfusion h
  rename_i st2 p2 hcrud
  obtain rfl := Except.ok.inj h
  rcases update_user_permission_ok hcrud with ⟨hnone, _⟩ | ⟨_, hst⟩
  · exact Option.noConfusion hnone
  · exact ⟨ev, hev, hg1, hg2, hst⟩

theorem remove_endpoint_ok {st st' : DBState} {eid uid caller : Nat} {ok : Bool}
    (h : remove_user_access_to_event st eid uid caller ok = .ok st') :
    ∃ ev, findEvent st eid = some ev ∧ ev.owner_id ≠ uid ∧
      st' = removedPermState st eid uid := by
  unfold remove_user_access_to_event at h
  split at h
  · exact Except.noConfusion h
  rename_i ev0 hgate
  split_ifs at h with howner hself
  split at h
  · exact Except.noConfusion h
  · exact Except.noConfusion h
  · exact Except.noConfusion h
  rename_i st2 hcrud
  obtain rfl := Except.ok.inj h
  obtain ⟨hfe, _⟩ := gate_ok hgate
  exact ⟨ev0, hfe, howner, remove_user_permission_ok hcrud⟩

/-! ## Preservation of the owner-row invariant -/

theorem permInv_updatedPermState {st : DBState} {ev : Event} {eid uid : Nat}
    {r : RoleEnum} (hPerm : PermInv st) (hmem : ev ∈ st.events)
    (heid : ev.id = eid)
    (hg1 : ¬(r = RoleEnum.owner ∧ ev.owner_id ≠ uid))
    (hg2 : ¬(ev.owner_id = uid ∧ r ≠ RoleEnum.owner)) :
    PermInv (updatedPermState st eid uid r) := by
  by_cases hro : r = RoleEnum.owner
  · -- the guards force the target to be the owner; the write is a no-op
    have huid : ev.owner_id = uid := by
      by_contra hne
      exact hg1 ⟨hro, hne⟩
    have hid : st.permissions.map (updRoleFn eid uid r) = st.permissions := by
      apply map_eq_self_of_eq
      intro x hx
      unfold updRoleFn
      split
      · rename_i hhit
        have hxrole : x.role = RoleEnum.owner :=
          owner_row_role hPerm hmem hx (hhit.1.trans heid.symm)
            (hhit.2.trans huid.symm)
        rw [hro, ← hxrole]
      · rfl
    have : updatedPermState st eid uid r = st := by
      unfold updatedPermState
      rw [hid]
    rw [this]
    exact hPerm
  · -- the guards force a non-owner target; owner rows are untouched
    have huid : ev.owner_id ≠ uid := fun h => hg2 ⟨h, hro⟩
    constructor
    · show pairKeysUnique (st.permissions.map (updRoleFn eid uid r)) = true
      rw [pairKeysUnique_map_updRole]
      exact hPerm.1
    · intro e he
      have hrows : ownerRows (updatedPermState st eid uid r) e.id =
          ownerRows st e.id := by
        unfold ownerRows updatedPermState
        apply filter_map_eq_filter
        intro x hx
        by_cases hhit : x.event_id = eid ∧ x.user_id = uid
        · by_cases hxr : x.role = RoleEnum.owner
          · exfalso
            have hxmem : x ∈ ownerRows st ev.id :=
              mem_ownerRows.mpr ⟨hx, hhit.1.trans heid.symm, hxr⟩
            obtain ⟨q, hqrows, hqu⟩ := ownerOk_elim (hPerm.2 ev hmem)
            rw [hqrows] at hxmem
            have hxq : x = q := List.mem_singleton.mp hxmem
            exact huid (by rw [← hqu, ← hxq]; exact hhit.2)
          · right
            constructor
            · simp [hxr]
            · simp [updRoleFn, hhit, hro]
        · left
          unfold updRoleFn
          rw [if_neg hhit]
      have hok : ownerOk (updatedPermState st eid uid r) e = ownerOk st e := by
        unfold ownerOk
        rw [hrows]
      rw [hok]
      exact hPerm.2 e he

theorem permInv_removedPermState {st : DBState} {ev : Event} {eid uid : Nat}
    (hPerm : PermInv st) (hmem : ev ∈ st.events) (heid : ev.id = eid)
    (huid : ev.owner_id ≠ uid) :
    PermInv (removedPermState st eid uid) := by
  constructor
  · exact pairKeysUnique_filter hPerm.1
  · intro e he
    have hrows : ownerRows (removedPermState st eid uid) e.id =
        ownerRows st e.id := by
      unfold ownerRows removedPermState
      apply filter_filter_keep
      intro x hx hpred
      simp only [Bool.and_eq_true, beq_iff_eq] at hpred
      rw [Bool.not_eq_true']
      by_cases hhit : x.event_id = eid ∧ x.user_id = uid
      · exfalso
        have hxmem : x ∈ ownerRows st ev.id :=
          mem_ownerRows.mpr ⟨hx, hhit.1.trans heid.symm, hpred.2⟩
        obtain ⟨q, hqrows, hqu⟩ := ownerOk_elim (hPerm.2 ev hmem)
        rw [hqrows] at hxmem
        have hxq : x = q := List.mem_singleton.mp hxmem
        exact huid (by rw [← hqu, ← hxq]; exact hhit.2)
      · simp only [Bool.and_eq_false_iff, beq_eq_false_iff_ne]
        by_cases h1 : x.event_id = eid
        · exact Or.inr (fun h2 => hhit ⟨h1, h2⟩)
        · exact Or.inl h1
    have hok : ownerOk (removedPermState st eid uid) e = ownerOk st e := by
      unfold ownerOk
      rw [hrows]
    rw [hok]
    exact hPerm.2 e he

theorem permInv_applyPermOp {st : DBState} (op : PermOp) (h : PermInv st) :
    PermInv (applyPermOp st op) := by
  cases op with
  | updateRole eid uid r caller ok =>
    show PermInv (resultStateD st (update_user_event_permission st eid uid r caller ok))
    cases hres : update_user_event_permission st eid uid r caller ok with
    | error e => exact h
    | ok st' =>
      show PermInv st'
      obtain ⟨ev, hev, hg1, hg2, rfl⟩ := update_endpoint_ok hres
      obtain ⟨hm, hid⟩ := findEvent_eq_some hev
      exact permInv_updatedPermState h hm hid hg1 hg2
  | revoke eid uid caller ok =>
    show PermInv (resultStateD st (remove_user_access_to_event st eid uid caller ok))
    cases hres : remove_user_access_to_event st eid uid caller ok with
    | error e => exact h
    | ok st' =>
      show PermInv st'
      obtain ⟨ev, hev, howner, rfl⟩ := remove_endpoint_ok hres
      obtain ⟨hm, hid⟩ := findEvent_eq_some hev
      exact permInv_removedPermState h hm hid howner

/-- Claim C3: the owner's permission is protected — updateRole to any non-OWNER
role for the owner fails with the owner-role conflict, revoking the
owner's permission fails with the owner-removal conflict (both rolled
back, leaving the row unchanged) — and across any trace of the
permission-mutating endpoints the table keeps exactly one OWNER row per
event, held by `Event.owner_id`. -/
theorem claim3_owner_row_immutable :
    (∀ (st : DBState) (eid : Nat) (ev : Event) (newRole : RoleEnum) (ok : Bool),
        findEvent st eid = some ev →
        (get_permission_by_event_and_user st eid ev.owner_id).isSome = true →
        newRole ≠ RoleEnum.owner →
        update_user_permission st eid ev.owner_id newRole ok =
          .error .ownerRoleImmutable) ∧
    (∀ (st : DBState) (eid : Nat) (ev : Event) (ok : Bool),
        findEvent st eid = some ev →
        remove_user_permission st eid ev.owner_id ok =
          .error .ownerPermissionNotRemovable) ∧
    (∀ (st : DBState) (ops : List PermOp), PermInv st →
        PermInv (ops.foldl applyPermOp st)) := by
  refine ⟨?_, ?_, ?_⟩
  · intro st eid ev newRole ok hfe hsome hne
    obtain ⟨p, hp⟩ := Option.isSome_iff_exists.mp hsome
    unfold update_user_permission
    rw [hp]
    simp only
    rw [hfe]
    simp only
    rw [if_pos ⟨trivial, hne⟩]
  · intro st eid ev ok hfe
    unfold remove_user_permission
    rw [hfe]
    simp only
    rw [if_pos trivial]
  · intro st ops h
    induction ops generalizing st with
    | nil => exact h
    | cons op rest ih => exact ih (applyPermOp st op) (permInv_applyPermOp op h)

/-- Witness for C3: in the fixture store, demoting the owner fails, and
revoking the owner fails; the fixture store satisfies the owner-row
invariant and keeps it across an endpoint operation. -/
theorem claim3_witness :
    update_user_permission wState 1 1 RoleEnum.editor true =
      .error .ownerRoleImmutable ∧
    remove_user_permission wState 1 1 true = .error .ownerPermissionNotRemovable ∧
    PermInv ([PermOp.revoke 1 2 1 true].foldl applyPermOp wState) :=
  ⟨claim3_owner_row_immutable.1 wState 1
      { id := 1, owner_id := 1, current_version_id := some 2 } RoleEnum.editor true
      (by decide) (by decide) (by decide),
   claim3_owner_row_immutable.2.1 wState 1
      { id := 1, owner_id := 1, current_version_id := some 2 } true (by decide),
   claim3_owner_row_immutable.2.2 wState [PermOp.revoke 1 2 1 true]
      ⟨by decide, by decide⟩⟩

/-! ## Diff laws -/

theorem deepDiff_swap_aux (fs : List DiffField) (c1 c2 : EventContent) :
    (fs.filterMap (fun f =>
        if fieldVal c2 f ≠ fieldVal c1 f then some (f, fieldVal c2 f, fieldVal c1 f)
        else none)) =
      (fs.filterMap (fun f =>
        if fieldVal c1 f ≠ fieldVal c2 f then some (f, fieldVal c1 f, fieldVal c2 f)
        else none)).map (fun x => (x.1, x.2.2, x.2.1)) := by
  induction fs with
  | nil => rfl
  | cons f t ih =>
    by_cases h : fieldVal c1 f = fieldVal c2 f
    · simp only [List.filterMap_cons, if_neg (not_not_intro h.symm),
        if_neg (not_not_intro h)]
      exact ih
    · have h2 : fieldVal c2 f ≠ fieldVal c1 f := fun hh => h hh.symm
      simp only [List.filterMap_cons, if_pos h, if_pos h2, List.map_cons]
      rw [ih]

/-- Claim C9: the diff endpoint rejects equal version ids with the self-diff
ValidationError; when both versions are found the response is the DeepDiff
of the dumped content dicts with metadata excluded, so versions whose
content fields agree diff to no changes regardless of their metadata; and
the reversed diff reports the same changed fields with old and new values
swapped. -/
theorem claim9_diff_laws :
    (∀ (st : DBState) (eid vid caller : Nat),
        get_event_diff_between_versions st eid vid vid caller =
          .error .badRequest400) ∧
    (∀ (st : DBState) (eid id1 id2 caller : Nat) (evx : Event)
        (px : EventPermission) (v1 v2 : EventVersion),
        id1 ≠ id2 →
        findEvent st eid = some evx →
        get_permission_by_event_and_user st eid caller = some px →
        get_event_version_by_version_id st eid id1 = some v1 →
        get_event_version_by_version_id st eid id2 = some v2 →
        get_event_diff_between_versions st eid id1 id2 caller =
          .ok (deepDiffContent (contentOfVersion v1) (contentOfVersion v2))) ∧
    (∀ v1 v2 : EventVersion,
        contentOfVersion v1 = contentOfVersion v2 →
        deepDiffContent (contentOfVersion v1) (contentOfVersion v2) = []) ∧
    (∀ c1 c2 : EventContent,
        deepDiffContent c2 c1 =
          (deepDiffContent c1 c2).map (fun x => (x.1, x.2.2, x.2.1))) := by
  refine ⟨?_, ?_, ?_, ?_⟩
  · intro st eid vid caller
    unfold get_event_diff_between_versions
    rw [if_pos rfl]
  · intro st eid id1 id2 caller evx px v1 v2 hne hfe hp hv1 hv2
    unfold get_event_diff_between_versions
    rw [if_neg hne, hfe]
    simp only
    rw [hp]
    simp only
    rw [hv1, hv2]
  · intro v1 v2 h
    rw [h]
    simp [deepDiffContent]
  · intro c1 c2
    unfold deepDiffContent
    exact deepDiff_swap_aux allDiffFields c1 c2

/-- Witness for C9: diffing the two fixture versions yields the DeepDiff of
their content projections (here, exactly the title change). -/
theorem claim9_witness :
    get_event_diff_between_versions wState 1 1 2 2 =
      .ok (deepDiffContent (contentOfVersion wVersion1) (contentOfVersion wVersion2)) :=
  claim9_diff_laws.2.1 wState 1 1 2 2
    { id := 1, owner_id := 1, current_version_id := some 2 }
    { id := 2, event_id := 1, user_id := 2, role := RoleEnum.editor }
    wVersion1 wVersion2
    (by decide) (by decide) (by decide) (by decide) (by decide)

/-! ## Recurrence expansion laws -/

/-- The fixture recurring content of the spec's example: 2024-01-01
09:00-10:00 UTC, weekly on Monday, Wednesday and Friday until
2024-01-31. -/
def recContent : EventContent :=
  { title := "Team Sync", description := none, start_time := 32400,
    end_time := 36000, location := none, is_recurring := true,
    recurrence_pattern := some "FREQ=WEEKLY;BYDAY=MO,WE,FR;UNTIL=20240131T000000Z" }

/-- Claim C6: expansion over the half-open window.  A non-recurring version
yields at most its own single instance, included iff it intersects the
window; a recurring version whose rule parses yields exactly the rule
occurrences enumerated in the inclusive bounds, each keeping the original
duration, filtered by the same intersection test; and on the spec's
example (weekly Mon/Wed/Fri 09:00-10:00Z until Jan 31, window
2024-01-08 .. 2024-01-15) the result is exactly the Jan 8, 10 and 12
instances. -/
theorem claim6_recurrence_expansion :
    (∀ (v : EventContent) (fs fe : Int),
        v.is_recurring = false →
        expand_recurring_event v fs fe =
          if v.start_time < fe ∧ fs < v.end_time then
            [{ title := v.title, instance_start_time := v.start_time,
               instance_end_time := v.end_time, location := v.location }]
          else []) ∧
    (∀ (v : EventContent) (fs fe : Int) (pat : String) (rule : WeeklyRule),
        v.is_recurring = true →
        v.recurrence_pattern = some pat →
        patternTruthy (some pat) = true →
        parseRecurrencePattern pat = some rule →
        expand_recurring_event v fs fe =
          (ruleOccurrencesBetween rule v.start_time fs fe).filterMap
            (fun occStart =>
              if occStart < fe ∧ fs < occStart + (v.end_time - v.start_time) then
                some { title := v.title, instance_start_time := occStart,
                       instance_end_time := occStart + (v.end_time - v.start_time),
                       location := v.location }
              else none)) ∧
    expand_recurring_event recContent 604800 1209600 =
      [{ title := "Team Sync", instance_start_time := 637200,
         instance_end_time := 640800, location := none },
       { title := "Team Sync", instance_start_time := 810000,
         instance_end_time := 813600, location := none },
       { title := "Team Sync", instance_start_time := 982800,
         instance_end_time := 986400, location := none }] := by
  refine ⟨?_, ?_, ?_⟩
  · intro v fs fe hrec
    unfold expand_recurring_event
    rw [if_pos (by rw [hrec]; rfl)]
  · intro v fs fe pat rule hrec hpat hpt hparse
    unfold expand_recurring_event
    rw [if_neg (by rw [hrec, hpat]; simp [hpt])]
    rw [hpat]
    simp only
    rw [hparse]
  · decide

/-- Witness for C6: a non-recurring version intersecting the window yields
exactly its own instance. -/
theorem claim6_witness :
    expand_recurring_event wContent 0 7200 =
      [{ title := "Planning", instance_start_time := 0,
         instance_end_time := 3600, location := none }] := by
  have h := claim6_recurrence_expansion.1 wContent 0 7200 rfl
  rw [h]
  decide

end NeoEvent

